import Mathlib

/-!
# Jonnay101/objectKeys : package helpers

Shallow embedding of `helpers/helpers.go` (ObjectKeys, ObjectKeysFlatten, Get,
Set, GetVals) together with the part of Go's `reflect` package those five
functions call.

Modelling decisions.

* A Go value is a `GoVal`: a tree that carries its own dynamic type.  Struct
  values carry their field descriptors next to the field values.  A pointer is
  modelled by its pointee, so pointer graphs are finite trees; cyclic values
  (on which the Go recursion of ObjectKeysFlatten does not terminate) lie
  outside this data model.
* `interface{}` arguments and results are `GoVal`s read through `GoVal.dyn`:
  `GoVal.ifaceNil` is the nil interface.
* A call either returns (`Outcome.ret`) or aborts with a run-time panic
  (`Outcome.panic`).  Go `error` results are `Option String` (the message).
* Go slices distinguish the nil slice from an allocated slice of length 0
  (`GoSlice`).
* `reflect`'s search for promoted fields (`FieldByNameFunc`) is standard
  library code; it is a parameter `fbnf` of the functions that reach it.
-/

namespace helpers

/-! ## Results of calls -/

/-- Result of running a Go function: normal return or run-time panic. -/
inductive Outcome (α : Type) where
  | ret (a : α)
  | panic (msg : String)
deriving DecidableEq, Repr

/-- Sequencing of calls: a panic aborts the rest. -/
def Outcome.bind {α β : Type} (x : Outcome α) (f : α → Outcome β) : Outcome β :=
  match x with
  | .ret a => f a
  | .panic m => .panic m

/-- Go slice: the nil slice, or an allocated slice with its elements. -/
inductive GoSlice (α : Type) where
  | nil
  | mk (elems : List α)
deriving DecidableEq, Repr

/-- Elements of a slice, in order. -/
def GoSlice.elems {α : Type} : GoSlice α → List α
  | .nil => []
  | .mk xs => xs

/-- Go `len(s)`. -/
def GoSlice.len {α : Type} (s : GoSlice α) : Nat := s.elems.length

/-- Go `append(r, x)`: always an allocated slice. -/
def GoSlice.append1 {α : Type} (r : GoSlice α) (x : α) : GoSlice α :=
  .mk (r.elems ++ [x])

/-- Go `append(r, sl...)`: with nothing to add the slice `r` itself comes back. -/
def GoSlice.appendAll {α : Type} (r sl : GoSlice α) : GoSlice α :=
  match sl.elems with
  | [] => r
  | x :: xs => .mk (r.elems ++ x :: xs)

/-! ## Values and types -/

/-- The enumeration `reflect.Kind`. -/
inductive Kind where
  | Invalid | Bool | Int | Int8 | Int16 | Int32 | Int64
  | Uint | Uint8 | Uint16 | Uint32 | Uint64 | Uintptr
  | Float32 | Float64 | Complex64 | Complex128
  | Array | Chan | Func | Interface | Map | Ptr | Slice | String | Struct
  | UnsafePtr
deriving DecidableEq, Repr

/-- Kinds of the values whose contents the helpers never inspect. -/
inductive LeafKind where
  | Bool | Int | Int8 | Int16 | Int32 | Int64
  | Uint | Uint8 | Uint16 | Uint32 | Uint64 | Uintptr
  | Float32 | Float64 | Complex64 | Complex128
  | Array | Chan | Func | Map | Slice | String
  | UnsafePtr
deriving DecidableEq, Repr

/-- The `reflect.Kind` of a leaf kind. -/
def LeafKind.toKind : LeafKind → Kind
  | .Bool => .Bool | .Int => .Int | .Int8 => .Int8 | .Int16 => .Int16
  | .Int32 => .Int32 | .Int64 => .Int64
  | .Uint => .Uint | .Uint8 => .Uint8 | .Uint16 => .Uint16 | .Uint32 => .Uint32
  | .Uint64 => .Uint64 | .Uintptr => .Uintptr
  | .Float32 => .Float32 | .Float64 => .Float64
  | .Complex64 => .Complex64 | .Complex128 => .Complex128
  | .Array => .Array | .Chan => .Chan | .Func => .Func | .Map => .Map
  | .Slice => .Slice | .String => .String | .UnsafePtr => .UnsafePtr

/-- The part of `reflect.StructField` the helpers read: the field name, whether
the name is exported (`PkgPath` empty) and whether the field is embedded. -/
structure StructField where
  Name : String
  Exported : Bool
  Anonymous : Bool
deriving DecidableEq, Repr

/-- Go values.  `leaf` covers booleans, numbers, strings, slices, arrays, maps,
channels and functions, with their contents as text; `ptr`/`ptrNil` are pointer
values; `iface`/`ifaceNil` are values of interface type (a field declared
`interface{}`, or the argument of a helper); `struct` lists the fields in
declaration order, each with its descriptor. -/
inductive GoVal where
  | leaf (k : LeafKind) (data : String)
  | ptrNil
  | ptr (elem : GoVal)
  | ifaceNil
  | iface (dyn : GoVal)
  | struct (fields : List (StructField × GoVal))

/-- The concrete value held in an interface: an interface wrapping is looked
through, the nil interface stays `ifaceNil`. -/
def GoVal.dyn : GoVal → GoVal
  | .iface d => d.dyn
  | x => x

/-- Kind of a stored value. -/
def GoVal.kind : GoVal → Kind
  | .leaf k _ => k.toKind
  | .ptrNil => .Ptr
  | .ptr _ => .Ptr
  | .ifaceNil => .Interface
  | .iface _ => .Interface
  | .struct _ => .Struct

/-- The part of `reflect.Type` the helpers read: a struct type with its field
descriptors, or a type of another kind. -/
inductive RType where
  | structT (fields : List StructField)
  | other (k : Kind)
deriving DecidableEq, Repr

/-- Type of a stored value. -/
def GoVal.rtype : GoVal → RType
  | .struct fs => .structT (fs.map Prod.fst)
  | x => .other x.kind

/-- Go `reflect.Type.Kind`. -/
def RType.Kind : RType → Kind
  | .structT _ => .Struct
  | .other k => k

/-- Go `reflect.Value`: the value (`none` for the zero Value) and the flag bits
`flagStickyRO`, `flagEmbedRO` and `flagAddr`. -/
structure Value where
  data : Option GoVal
  stickyRO : Bool
  embedRO : Bool
  addr : Bool

/-- The zero `reflect.Value`. -/
def Value.zero : Value := ⟨none, false, false, false⟩

/-- Go `reflect.ValueOf(i)`: the zero Value for a nil interface. -/
def ValueOf (i : GoVal) : Value :=
  match i.dyn with
  | .ifaceNil => Value.zero
  | x => ⟨some x, false, false, false⟩

/-- Go `reflect.TypeOf(i)`: nil (`none`) for a nil interface. -/
def TypeOf (i : GoVal) : Option RType :=
  match i.dyn with
  | .ifaceNil => none
  | x => some x.rtype

/-- Go `Value.Kind`: `Invalid` for the zero Value. -/
def Value.Kind (v : Value) : Kind :=
  match v.data with
  | none => .Invalid
  | some x => x.kind

/-- Go `Value.Elem`: the pointee of a pointer (addressable) or the content of
an interface; the zero Value for nil; a panic on any other kind. -/
def Value.Elem (v : Value) : Outcome Value :=
  match v.data with
  | some (.ptr e) => .ret ⟨some e, v.stickyRO, v.embedRO, true⟩
  | some .ptrNil => .ret Value.zero
  | some (.iface d) =>
    match d.dyn with
    | .ifaceNil => .ret Value.zero
    | x => .ret ⟨some x, v.stickyRO || v.embedRO, false, false⟩
  | some .ifaceNil => .ret Value.zero
  | _ => .panic "reflect: call of reflect.Value.Elem on non-pointer Value"

/-- Go `reflect.Indirect`. -/
def Indirect (v : Value) : Outcome Value :=
  if v.Kind ≠ .Ptr then .ret v else v.Elem

/-- Go `Value.NumField`. -/
def Value.NumField (v : Value) : Outcome Nat :=
  match v.data with
  | some (.struct fs) => .ret fs.length
  | _ => .panic "reflect: call of reflect.Value.NumField on non-struct Value"

/-- Go `Value.Type`. -/
def Value.Type (v : Value) : Outcome RType :=
  match v.data with
  | none => .panic "reflect: call of reflect.Value.Type on zero Value"
  | some x => .ret x.rtype

/-- Go `Type.Field(i)`. -/
def RType.Field (t : RType) (i : Nat) : Outcome StructField :=
  match t with
  | .structT fs =>
    match fs[i]? with
    | some f => .ret f
    | none => .panic "reflect: Field index out of bounds"
  | .other _ => .panic "reflect: Field of non-struct type"

/-- Go `Value.Field(i)`: the field inherits `flagStickyRO` and `flagAddr`, and
an unexported field is read-only (`flagEmbedRO` when embedded, `flagStickyRO`
otherwise). -/
def Value.Field (v : Value) (i : Nat) : Outcome Value :=
  match v.data with
  | some (.struct fs) =>
    match fs[i]? with
    | some (f, x) =>
      .ret ⟨some x, v.stickyRO || (!f.Exported && !f.Anonymous),
            !f.Exported && f.Anonymous, v.addr⟩
    | none => .panic "reflect: Field index out of range"
  | _ => .panic "reflect: call of reflect.Value.Field on non-struct Value"

/-- Go `Value.CanInterface`. -/
def Value.CanInterface (v : Value) : Outcome Bool :=
  match v.data with
  | none => .panic "reflect: call of reflect.Value.CanInterface on zero Value"
  | some _ => .ret (!(v.stickyRO || v.embedRO))

/-- Panic text of `Value.Interface` on a value read from an unexported field. -/
def panicInterfaceRO : String :=
  "reflect.Value.Interface: cannot return value obtained from unexported field or method"

/-- Go `Value.Interface`: panics on the zero Value and on a value obtained from
an unexported field; otherwise the value as an `interface{}`. -/
def Value.Interface (v : Value) : Outcome GoVal :=
  match v.data with
  | none => .panic "reflect: call of reflect.Value.Interface on zero Value"
  | some x =>
    if v.stickyRO || v.embedRO then .panic panicInterfaceRO
    else .ret x.dyn

/-- Go `Value.CanSet`. -/
def Value.CanSet (v : Value) : Bool :=
  v.addr && !(v.stickyRO || v.embedRO)

/-- The quick check of `structType.FieldByName`: scan the declared fields for
the name, remembering whether an embedded field was passed. -/
def FieldByName.scan (name : String) : List StructField → Nat → Bool → Option Nat × Bool
  | [], _, hasEmbeds => (none, hasEmbeds)
  | tf :: rest, i, hasEmbeds =>
    if tf.Name = name then (some i, hasEmbeds)
    else FieldByName.scan name rest (i + 1) (hasEmbeds || tf.Anonymous)

/-- Go `structType.FieldByName`, giving the `Index` of the field found: a
declared field wins; otherwise, when the struct has embedded fields, the
search for promoted fields `fbnf` (reflect's `FieldByNameFunc`) decides. -/
def structFieldByName (fbnf : List StructField → String → Option (List Nat))
    (fields : List StructField) (name : String) : Option (List Nat) :=
  let q := if name ≠ "" then FieldByName.scan name fields 0 false else (none, false)
  match q.1 with
  | some i => some [i]
  | none => if !q.2 then none else fbnf fields name

/-- Go `t.FieldByName(name)` for `t := reflect.TypeOf(i)`: a nil Type and a
type that is not a struct type panic. -/
def FieldByName (fbnf : List StructField → String → Option (List Nat))
    (t : Option RType) (name : String) : Outcome (Option (List Nat)) :=
  match t with
  | none => .panic "runtime error: invalid memory address or nil pointer dereference"
  | some (.other _) => .panic "reflect: FieldByName of non-struct type"
  | some (.structT fs) => .ret (structFieldByName fbnf fs name)

/-! ## helpers.go -/

/-- Error text of ObjectKeys and ObjectKeysFlatten. -/
def errStructOrPtr : String :=
  "this function only accepts struct types or pointer-to-struct types"

/-- Error text of Get and Set for an argument that is not a struct. -/
def errMustBeStruct : String := "The provided interface must be a struct type"

/-- Error text of Get and Set for a name that matches no field. -/
def errNoSuchKey : String :=
  "Sorry, your key doesn't match any fields in the provided struct type"

/-- Error text of Get for a field that can not be read. -/
def errGetInterface : String :=
  "the value you're trying to fetch can not be made into an interface"

/-- Error text of Set for a field that can not be read. -/
def errSetInterface : String :=
  "Sorry, we can't interface the field value you're trying to set"

/-- Error text of Set for a field that can not be set. -/
def errCantSet : String := "Sorry, we can't set the value of that field"

/-- The loop of ObjectKeys (helpers.go lines 17-26) over the indices
`0 .. NumField-1`: read the descriptor and the field, step through a pointer
field, append the name. -/
def ObjectKeys.loop (v : Value) : List Nat → GoSlice String → Outcome (GoSlice String)
  | [], r => .ret r
  | i :: rest, r =>
    (v.Type.bind fun t => t.Field i).bind fun ft =>
    (v.Field i).bind fun fv =>
    (if fv.Kind = .Ptr then fv.Elem else .ret fv).bind fun _ =>
    ObjectKeys.loop v rest (r.append1 ft.Name)

/-- Go `ObjectKeys` (helpers.go lines 10-29). -/
def ObjectKeys (i : GoVal) : Outcome (GoSlice String × Option String) :=
  (Indirect (ValueOf i)).bind fun v =>
  if v.Kind ≠ .Struct then .ret (.nil, some errStructOrPtr)
  else
    v.NumField.bind fun n =>
    (ObjectKeys.loop v (List.range n) .nil).bind fun r =>
    .ret (r, none)

/-- The loop of ObjectKeysFlatten (helpers.go lines 42-58); `self` is the
function called recursively on line 55, whose error is dropped. -/
def ObjectKeysFlatten.loop (self : GoVal → Outcome (GoSlice String × Option String))
    (v : Value) : List Nat → GoSlice String → Outcome (GoSlice String)
  | [], r => .ret r
  | i :: rest, r =>
    (v.Type.bind fun t => t.Field i).bind fun ft =>
    (v.Field i).bind fun fv =>
    (if fv.Kind = .Ptr then fv.Elem else .ret fv).bind fun fv =>
    let r := r.append1 ft.Name
    if fv.Kind = .Struct then
      fv.Interface.bind fun fi =>
      (self fi).bind fun p =>
      ObjectKeysFlatten.loop self v rest (r.appendAll p.1)
    else ObjectKeysFlatten.loop self v rest r

/-- Go `ObjectKeysFlatten` (helpers.go lines 33-61) with a bound on the depth
of nested calls; running out of it is the overflow of the goroutine stack. -/
def ObjectKeysFlatten.go : Nat → GoVal → Outcome (GoSlice String × Option String)
  | 0, _ => .panic "runtime: goroutine stack exceeds limit"
  | fuel + 1, i =>
    (Indirect (ValueOf i)).bind fun v =>
    let k := v.Kind
    if k ≠ .Struct then .ret (.nil, some errStructOrPtr)
    else
      v.NumField.bind fun n =>
      (ObjectKeysFlatten.loop (ObjectKeysFlatten.go fuel) v (List.range n) .nil).bind fun r =>
      .ret (r, none)

/-- Number of nested struct levels of a value: the deepest chain of calls of
ObjectKeysFlatten the value can cause. -/
def GoVal.depth : GoVal → Nat
  | .leaf _ _ => 0
  | .ptrNil => 0
  | .ptr e => e.depth
  | .ifaceNil => 0
  | .iface d => d.depth
  | .struct fs => depthFields fs + 1
where
  /-- Largest depth among the fields. -/
  depthFields : List (StructField × GoVal) → Nat
  | [] => 0
  | p :: rest => max p.2.depth (depthFields rest)

/-- Go `ObjectKeysFlatten`: values are finite trees, so the nesting depth of
the argument bounds the depth of the recursion. -/
def ObjectKeysFlatten (i : GoVal) : Outcome (GoSlice String × Option String) :=
  ObjectKeysFlatten.go (i.depth + 1) i

/-- Go `Get` (helpers.go lines 65-83). -/
def Get (fbnf : List StructField → String → Option (List Nat))
    (i : GoVal) (fn : String) : Outcome (GoVal × Option String) :=
  let t := TypeOf i
  let v := ValueOf i
  if v.Kind ≠ .Struct then .ret (.ifaceNil, some errMustBeStruct)
  else
    (FieldByName fbnf t fn).bind fun sf =>
    match sf with
    | none => .ret (.ifaceNil, some errNoSuchKey)
    | some index =>
      match index with
      | [] => .panic "runtime error: index out of range"
      | i0 :: _ =>
        (v.Field i0).bind fun fv =>
        fv.CanInterface.bind fun ok =>
        if !ok then .ret (.ifaceNil, some errGetInterface)
        else fv.Interface.bind fun x => .ret (x, none)

/-- The store made by `fv.Set` seen from the caller: the argument `i` of Set
with field `idx` of the struct it points to replaced by `x`. -/
def storeField (i : GoVal) (idx : Nat) (x : GoVal) : GoVal :=
  match i.dyn with
  | .ptr (.struct fs) =>
    .ptr (.struct (fs.enum.map fun p => if p.1 = idx then (p.2.1, x) else p.2))
  | y => y

/-- Go `fv.Set(x)`: panics unless `fv` is settable, `x` is a valid exported
Value and the type of `x` is assignable to the type of the field
(`assignable new old`, reflect's assignability of types); the result is the new
content of the field. -/
def Value.Set (assignable : GoVal → GoVal → Bool) (fv x : Value) : Outcome GoVal :=
  match fv.data, x.data with
  | some old, some new =>
    if !fv.CanSet then .panic "reflect: reflect.Value.Set using unaddressable value"
    else if x.stickyRO || x.embedRO then
      .panic "reflect: reflect.Value.Set using value obtained using unexported field"
    else if !assignable new old then .panic "reflect.Set: value is not assignable to type"
    else if old.kind = .Interface then .ret (.iface new) else .ret new
  | _, _ => .panic "reflect: call of reflect.Value.Set on zero Value"

/-- Go `Set` (helpers.go lines 87-107).  The result is the returned error and
the argument `i` as it is after the call. -/
def Set (fbnf : List StructField → String → Option (List Nat))
    (assignable : GoVal → GoVal → Bool)
    (i : GoVal) (k : String) (val : GoVal) : Outcome (Option String × GoVal) :=
  let t := TypeOf i
  (Indirect (ValueOf i)).bind fun v =>
  if v.Kind ≠ .Struct then .ret (some errMustBeStruct, i)
  else
    (FieldByName fbnf t k).bind fun sf =>
    match sf with
    | none => .ret (some errNoSuchKey, i)
    | some index =>
      match index with
      | [] => .panic "runtime error: index out of range"
      | i0 :: _ =>
        (v.Field i0).bind fun fv =>
        fv.CanInterface.bind fun ok =>
        if !ok then .ret (some errSetInterface, i)
        else if !fv.CanSet then .ret (some errCantSet, i)
        else
          (Value.Set assignable fv (ValueOf val)).bind fun x =>
          .ret (none, storeField i i0 x)

/-- The loop of GetVals (helpers.go lines 119-125). -/
def GetVals.loop (fbnf : List StructField → String → Option (List Nat)) (i : GoVal) :
    List String → GoSlice GoVal → Outcome (GoSlice GoVal × Option String)
  | [], r => .ret (r, none)
  | fn :: rest, r =>
    (Get fbnf i fn).bind fun p =>
    match p.2 with
    | some e => .ret (.mk [], some e)
    | none => GetVals.loop fbnf i rest (r.append1 p.1)

/-- Go `GetVals` (helpers.go lines 110-129). -/
def GetVals (fbnf : List StructField → String → Option (List Nat))
    (i : GoVal) : Outcome (GoSlice GoVal × Option String) :=
  (ObjectKeys i).bind fun p =>
  match p.2 with
  | some e => .ret (.mk [], some e)
  | none =>
    if p.1.len > 0 then GetVals.loop fbnf i p.1.elems .nil
    else .ret (.nil, none)

/-! ## Values of helpers_test.go -/

/-- A field descriptor of an ordinary (not embedded) field. -/
def fld (name : String) (exported : Bool) : StructField := ⟨name, exported, false⟩

/-- Test value `InnerInnerThing` with the given strings. -/
def innerInnerThing (a b : String) : GoVal :=
  .struct [(fld "Key7" true, .leaf .String a), (fld "Key8" true, .leaf .String b)]

/-- Test value `InnerThing`. -/
def innerThing (x : String) (y : GoVal) : GoVal :=
  .struct [(fld "Key5" true, .leaf .Float32 x), (fld "Key6" true, y)]

/-- Test value `Thing`. -/
def thing (k1 k2 k3 : String) (k4 : GoVal) : GoVal :=
  .struct [(fld "Key1" true, .leaf .String k1), (fld "Key2" true, .leaf .Int k2),
           (fld "Key3" true, .leaf .Slice k3), (fld "Key4" true, k4)]

/-- Test value `Thing{}`. -/
def thingZero : GoVal := thing "" "0" "[]" (innerThing "0" (innerInnerThing "" ""))

/-- Test value `UnExportedField`. -/
def unExportedField (a b : String) : GoVal :=
  .struct [(fld "key1" false, .leaf .String a), (fld "Key2" true, .leaf .String b)]

/-- Test value `PointerField`. -/
def pointerField (p : GoVal) (s : String) : GoVal :=
  .struct [(fld "Key1" true, p), (fld "Key2" true, .leaf .String s)]

/-- Test value `SliceThing{}`. -/
def sliceThing : GoVal := .leaf .Slice "[]"

/-- Test value `InnerGet`. -/
def innerGet (n : String) : GoVal := .struct [(fld "Number" true, .leaf .Int n)]

/-- Test value `GetFieldStruct`. -/
def getFieldStruct (k : String) (inner : GoVal) : GoVal :=
  .struct [(fld "Key1" true, k |> GoVal.leaf .String), (fld "Inner" true, inner)]

/-- A search for promoted fields that finds nothing: right for every struct
type without embedded fields. -/
def noPromoted : List StructField → String → Option (List Nat) := fun _ _ => none

/-! ## Reference definitions of the specification and closed forms -/

/-- The value of a field after resolving one pointer level. -/
def GoVal.resolve : GoVal → GoVal
  | .ptr e => e
  | x => x

mutual
/-- Reference definition of the flattened listing, following the words of the
specification: over the fields in declaration order, the field name followed by
the flattened names of the field value when that value, after resolving one
pointer level, is a struct, and by nothing otherwise.  A value that is not a
struct has no names. -/
def GoVal.flatNames : GoVal → List String
  | .struct fs => fieldsFlat fs
  | _ => []
/-- The names a field value adds after its own name: those of the struct it is
or points to. -/
def GoVal.nestedNames : GoVal → List String
  | .ptr e => e.flatNames
  | .struct fs => fieldsFlat fs
  | _ => []
/-- The flattened names of a list of fields. -/
def fieldsFlat : List (StructField × GoVal) → List String
  | [] => []
  | (f, x) :: rest => f.Name :: (x.nestedNames ++ fieldsFlat rest)
end

mutual
/-- Every field whose value, after resolving one pointer level, is a struct is
exported, at every nesting level below this value. -/
def GoVal.nestedExported : GoVal → Bool
  | .struct fs => fieldsExported fs
  | _ => true
/-- The same for the value of a field whose descriptor says `exported`. -/
def GoVal.fieldExported (exported : Bool) : GoVal → Bool
  | .ptr e => (e.kind != .Struct || exported) && e.nestedExported
  | .struct fs => exported && fieldsExported fs
  | _ => true
/-- The same for a list of fields. -/
def fieldsExported : List (StructField × GoVal) → Bool
  | [] => true
  | (f, x) :: rest => x.fieldExported f.Exported && fieldsExported rest
end

/-- The slice built by appending the given names one by one to a nil slice. -/
def GoSlice.ofAppends {α : Type} : List α → GoSlice α
  | [] => .nil
  | x :: xs => .mk (x :: xs)

/-- What ObjectKeysFlatten does on a struct with fields `fs`, in closed form:
the reference listing when every nested struct sits in an exported field, the
panic of `Value.Interface` otherwise. -/
def flatResult (fs : List (StructField × GoVal)) : Outcome (GoSlice String × Option String) :=
  if fieldsExported fs then .ret (GoSlice.ofAppends (fieldsFlat fs), none)
  else .panic panicInterfaceRO

/-- Go's rules for the declared fields of a struct type (the data model of the
specification: field names are unique within one value, enforced by the host
language): no field name is empty, the blank name `_` is not exported, and two
fields carry the same name only when it is the blank name. -/
def validFields : List StructField → Bool
  | [] => true
  | f :: rest =>
    f.Name != "" && (f.Name != "_" || !f.Exported) &&
      rest.all (fun g => g.Name != f.Name || f.Name == "_") && validFields rest

/-- A struct with a struct in an unexported field, as in
`struct { inner InnerGet }`. -/
def hiddenInner : GoVal := .struct [(fld "inner" false, innerGet "3")]

/-- A struct with an exported field followed by an unexported one. -/
def exportedThenHidden : GoVal :=
  .struct [(fld "Key2" true, .leaf .String "that"), (fld "key1" false, .leaf .String "this")]

/-- Test-style value: a nil pointer field next to a struct in an unexported
field, as in `struct { P *InnerGet; inner InnerGet }`. -/
def nilPtrAndHidden : GoVal :=
  .struct [(fld "P" true, .ptrNil), (fld "inner" false, innerGet "3")]

/-- Test-style value: `PointerField` with a nil pointer. -/
def nilPtrField : GoVal := pointerField .ptrNil "three"

/-- A struct whose unexported field points to a struct, as in
`struct { Key2 string; inner *InnerGet }`. -/
def hiddenPtrField : GoVal :=
  .struct [(fld "Key2" true, .leaf .String "that"), (fld "inner" false, .ptr (innerGet "3"))]

/-! ## Lemmas: results, slices and the loop of ObjectKeys -/

@[simp] theorem Outcome.ret_bind {α β : Type} (a : α) (f : α → Outcome β) :
    (Outcome.ret a).bind f = f a := rfl

@[simp] theorem Outcome.panic_bind {α β : Type} (m : String) (f : α → Outcome β) :
    (Outcome.panic m : Outcome α).bind f = .panic m := rfl

@[simp] theorem GoSlice.elems_nil {α : Type} : (GoSlice.nil : GoSlice α).elems = [] := rfl

@[simp] theorem GoSlice.elems_mk {α : Type} (xs : List α) : (GoSlice.mk xs).elems = xs := rfl

@[simp] theorem GoSlice.elems_append1 {α : Type} (r : GoSlice α) (x : α) :
    (r.append1 x).elems = r.elems ++ [x] := rfl

theorem GoSlice.mk_appendAll {α : Type} (xs : List α) (sl : GoSlice α) :
    (GoSlice.mk xs).appendAll sl = .mk (xs ++ sl.elems) := by
  unfold GoSlice.appendAll
  cases h : sl.elems <;> simp

/-- Stepping through a pointer never panics. -/
theorem Value.Elem_of_kind_ptr (v : Value) (h : v.Kind = .Ptr) :
    ∃ w, v.Elem = .ret w := by
  obtain ⟨d, s, e, a⟩ := v
  cases d with
  | none => simp [Value.Kind] at h
  | some x =>
    cases x <;> simp [Value.Kind, GoVal.kind] at h <;> simp [Value.Elem]
    rename_i k _; cases k <;> simp [LeafKind.toKind] at h

/-- One turn of the loop of ObjectKeys at a valid index. -/
theorem ObjectKeys_loop_cons (fs : List (StructField × GoVal)) (s e a : Bool)
    (k : Nat) (rest : List Nat) (r : GoSlice String) (f : StructField) (x : GoVal)
    (h : fs[k]? = some (f, x)) :
    ObjectKeys.loop ⟨some (.struct fs), s, e, a⟩ (k :: rest) r =
      ObjectKeys.loop ⟨some (.struct fs), s, e, a⟩ rest (r.append1 f.Name) := by
  simp only [ObjectKeys.loop, Value.Type, GoVal.rtype, Outcome.ret_bind,
    RType.Field, Value.Field, List.getElem?_map, h, Option.map_some']
  split
  · rename_i hk
    obtain ⟨w, hw⟩ := Value.Elem_of_kind_ptr _ hk
    rw [hw]; rfl
  · rfl

/-- The slice a loop leaves after appending `names` one by one to `r`. -/
theorem ObjectKeys_loop_range (fs : List (StructField × GoVal)) (s e a : Bool) :
    ∀ (m k : Nat) (r : GoSlice String), k + m = fs.length →
      ObjectKeys.loop ⟨some (.struct fs), s, e, a⟩ (List.range' k m) r =
        .ret (match fs.drop k with
              | [] => r
              | _ :: _ => .mk (r.elems ++ (fs.drop k).map fun p => p.1.Name)) := by
  intro m
  induction m with
  | zero =>
    intro k r h
    have : fs.drop k = [] := List.drop_eq_nil_of_le (by omega)
    simp [ObjectKeys.loop, this]
  | succ m ih =>
    intro k r h
    have hk : k < fs.length := by omega
    have hd : fs.drop k = fs[k] :: fs.drop (k + 1) := List.drop_eq_getElem_cons hk
    have hg : fs[k]? = some (fs[k].1, fs[k].2) := List.getElem?_eq_getElem hk
    rw [List.range'_succ, ObjectKeys_loop_cons fs s e a k _ r _ _ hg, ih (k + 1) _ (by omega), hd]
    cases hd2 : fs.drop (k + 1) <;> simp [GoSlice.append1]

/-- The struct value `V` passed directly as seen through `reflect`. -/
theorem Indirect_ValueOf_struct (fs : List (StructField × GoVal)) :
    Indirect (ValueOf (.struct fs)) = .ret ⟨some (.struct fs), false, false, false⟩ := rfl

/-- ObjectKeys on a struct passed directly. -/
theorem ObjectKeys_struct (fs : List (StructField × GoVal)) :
    ObjectKeys (.struct fs) =
      .ret (match fs with
            | [] => .nil
            | _ :: _ => .mk (fs.map fun p => p.1.Name), none) := by
  unfold ObjectKeys
  rw [Indirect_ValueOf_struct]
  simp only [Outcome.ret_bind, Value.Kind, GoVal.kind, ne_eq, not_true_eq_false, if_false,
    Value.NumField, List.range_eq_range']
  rw [ObjectKeys_loop_range fs false false false fs.length 0 .nil (by simp)]
  cases fs <;> simp

/-! ## Lemmas: ObjectKeysFlatten in closed form -/

@[simp] theorem GoSlice.elems_ofAppends {α : Type} (l : List α) :
    (GoSlice.ofAppends l).elems = l := by
  cases l <;> rfl

theorem GoVal.nestedNames_eq (x : GoVal) : x.nestedNames = x.resolve.flatNames := by
  cases x <;> simp [GoVal.nestedNames, GoVal.resolve, GoVal.flatNames]

theorem GoVal.fieldExported_eq (b : Bool) (x : GoVal) :
    x.fieldExported b = ((x.resolve.kind != .Struct || b) && x.resolve.nestedExported) := by
  cases x <;> simp [GoVal.fieldExported, GoVal.resolve, GoVal.nestedExported, GoVal.kind]
  rename_i k _; cases k <;> simp [LeafKind.toKind]

/-- One turn of the loop of ObjectKeysFlatten at a valid index. -/
theorem ObjectKeysFlatten_loop_cons (self : GoVal → Outcome (GoSlice String × Option String))
    (fs : List (StructField × GoVal)) (a : Bool)
    (k : Nat) (rest : List Nat) (r : GoSlice String) (f : StructField) (x : GoVal)
    (h : fs[k]? = some (f, x)) :
    ObjectKeysFlatten.loop self ⟨some (.struct fs), false, false, a⟩ (k :: rest) r =
      if x.resolve.kind = .Struct then
        if f.Exported then
          (self x.resolve).bind fun p =>
            ObjectKeysFlatten.loop self ⟨some (.struct fs), false, false, a⟩ rest
              ((r.append1 f.Name).appendAll p.1)
        else .panic panicInterfaceRO
      else
        ObjectKeysFlatten.loop self ⟨some (.struct fs), false, false, a⟩ rest
          (r.append1 f.Name) := by
  simp only [ObjectKeysFlatten.loop, Value.Type, GoVal.rtype, Outcome.ret_bind,
    RType.Field, Value.Field, List.getElem?_map, h, Option.map_some']
  cases x with
  | leaf lk d => cases lk <;> simp [Value.Kind, GoVal.kind, GoVal.resolve, LeafKind.toKind]
  | ptrNil => simp [Value.Kind, GoVal.kind, GoVal.resolve, Value.Elem, Value.zero]
  | ifaceNil => simp [Value.Kind, GoVal.kind, GoVal.resolve]
  | iface d => simp [Value.Kind, GoVal.kind, GoVal.resolve]
  | struct gs =>
    cases hE : f.Exported <;>
      simp [Value.Kind, GoVal.kind, GoVal.resolve, Value.Interface, GoVal.dyn, panicInterfaceRO]
  | ptr e =>
    cases e with
    | leaf lk d =>
      cases lk <;> simp [Value.Kind, GoVal.kind, GoVal.resolve, LeafKind.toKind, Value.Elem]
    | ptrNil => simp [Value.Kind, GoVal.kind, GoVal.resolve, Value.Elem]
    | ptr e2 => simp [Value.Kind, GoVal.kind, GoVal.resolve, Value.Elem]
    | ifaceNil => simp [Value.Kind, GoVal.kind, GoVal.resolve, Value.Elem]
    | iface d => simp [Value.Kind, GoVal.kind, GoVal.resolve, Value.Elem]
    | struct gs =>
      cases hE : f.Exported <;>
        simp [Value.Kind, GoVal.kind, GoVal.resolve, Value.Elem, Value.Interface, GoVal.dyn,
          panicInterfaceRO]

theorem GoVal.eq_struct_of_kind (x : GoVal) (h : x.kind = .Struct) : ∃ gs, x = .struct gs := by
  cases x <;> simp [GoVal.kind] at h
  · rename_i k _; cases k <;> simp [LeafKind.toKind] at h
  · exact ⟨_, rfl⟩

theorem GoVal.flatNames_of_kind_ne (x : GoVal) (h : x.kind ≠ .Struct) : x.flatNames = [] := by
  cases x <;> simp [GoVal.flatNames, GoVal.kind] at h ⊢

theorem GoVal.nestedExported_of_kind_ne (x : GoVal) (h : x.kind ≠ .Struct) :
    x.nestedExported = true := by
  cases x <;> simp [GoVal.nestedExported, GoVal.kind] at h ⊢

theorem GoVal.depth_resolve (x : GoVal) : x.resolve.depth = x.depth := by
  cases x <;> simp [GoVal.resolve, GoVal.depth]

theorem GoVal.depth_le_depthFields (fs : List (StructField × GoVal)) :
    ∀ p ∈ fs, p.2.depth ≤ GoVal.depth.depthFields fs := by
  induction fs with
  | nil => intro p hp; cases hp
  | cons q rest ih =>
    intro p hp
    simp only [GoVal.depth.depthFields]
    rcases List.mem_cons.mp hp with h | h
    · subst h; exact le_max_left _ _
    · exact le_trans (ih p h) (le_max_right _ _)

/-- The loop of ObjectKeysFlatten from index `k` on, when the recursive calls
behave as `flatResult` says. -/
theorem ObjectKeysFlatten_loop_range (self : GoVal → Outcome (GoSlice String × Option String))
    (fs : List (StructField × GoVal)) (a : Bool)
    (hself : ∀ p ∈ fs, ∀ gs, p.2.resolve = .struct gs → self (.struct gs) = flatResult gs) :
    ∀ (m k : Nat) (r : GoSlice String), k + m = fs.length →
      ObjectKeysFlatten.loop self ⟨some (.struct fs), false, false, a⟩ (List.range' k m) r =
        if fieldsExported (fs.drop k) then
          .ret (match fs.drop k with
                | [] => r
                | _ :: _ => .mk (r.elems ++ fieldsFlat (fs.drop k)))
        else .panic panicInterfaceRO := by
  intro m
  induction m with
  | zero =>
    intro k r h
    have : fs.drop k = [] := List.drop_eq_nil_of_le (by omega)
    simp [ObjectKeysFlatten.loop, this, fieldsExported]
  | succ m ih =>
    intro k r h
    have hk : k < fs.length := by omega
    have hd : fs.drop k = fs[k] :: fs.drop (k + 1) := List.drop_eq_getElem_cons hk
    have hmem : fs[k] ∈ fs := List.getElem_mem hk
    have hg : fs[k]? = some fs[k] := List.getElem?_eq_getElem hk
    generalize fs[k] = p at hd hmem hg
    obtain ⟨f, x⟩ := p
    rw [List.range'_succ, ObjectKeysFlatten_loop_cons self fs a k _ r f x hg, hd]
    simp only [fieldsExported, fieldsFlat, GoVal.fieldExported_eq, GoVal.nestedNames_eq]
    by_cases hs : x.resolve.kind = .Struct
    · obtain ⟨gs, hgs⟩ := GoVal.eq_struct_of_kind _ hs
      have hcall := hself (f, x) hmem gs hgs
      rw [hgs] at hs ⊢
      simp only [hs, if_true, hcall, flatResult, GoVal.nestedExported, GoVal.flatNames]
      cases hE : f.Exported
      · simp
      · cases hN : fieldsExported gs
        · simp
        · simp only [if_true, Outcome.ret_bind, GoSlice.append1, GoSlice.mk_appendAll,
            GoSlice.elems_ofAppends]
          rw [ih (k + 1) _ (by omega)]
          cases hR : fieldsExported (fs.drop (k + 1))
          · simp
          · cases hd2 : fs.drop (k + 1) <;> simp [fieldsFlat]
    · simp only [hs, if_false, GoVal.flatNames_of_kind_ne _ hs,
        GoVal.nestedExported_of_kind_ne _ hs]
      rw [ih (k + 1) _ (by omega)]
      cases hR : fieldsExported (fs.drop (k + 1))
      · simp
      · cases hd2 : fs.drop (k + 1) <;> simp [GoSlice.append1, fieldsFlat, hs]

/-- ObjectKeysFlatten with enough stack on a struct passed directly. -/
theorem ObjectKeysFlatten.go_struct :
    ∀ (fuel : Nat) (fs : List (StructField × GoVal)),
      GoVal.depth.depthFields fs < fuel →
      ObjectKeysFlatten.go fuel (.struct fs) = flatResult fs := by
  intro fuel
  induction fuel with
  | zero => intro fs h; omega
  | succ fuel ih =>
    intro fs h
    unfold ObjectKeysFlatten.go
    rw [Indirect_ValueOf_struct]
    simp only [Outcome.ret_bind, Value.Kind, GoVal.kind, ne_eq, not_true_eq_false, if_false,
      Value.NumField, List.range_eq_range']
    rw [ObjectKeysFlatten_loop_range (ObjectKeysFlatten.go fuel) fs false ?_ fs.length 0 .nil
      (by simp)]
    · simp only [List.drop_zero, flatResult]
      cases hR : fieldsExported fs
      · simp
      · cases fs <;> simp [GoSlice.ofAppends, fieldsFlat]
    · intro p hp gs hgs
      apply ih
      have h1 := GoVal.depth_le_depthFields fs p hp
      have h2 := GoVal.depth_resolve p.2
      rw [hgs] at h2
      simp only [GoVal.depth] at h2
      omega

/-- ObjectKeysFlatten on a struct passed directly, in closed form. -/
theorem ObjectKeysFlatten_struct (fs : List (StructField × GoVal)) :
    ObjectKeysFlatten (.struct fs) = flatResult fs := by
  unfold ObjectKeysFlatten
  exact ObjectKeysFlatten.go_struct _ fs (by simp only [GoVal.depth]; omega)

/-- A pointer to a struct as seen through `reflect`: the struct, addressable. -/
theorem Indirect_ValueOf_ptr_struct (fs : List (StructField × GoVal)) :
    Indirect (ValueOf (.ptr (.struct fs))) = .ret ⟨some (.struct fs), false, false, true⟩ := rfl

/-- ObjectKeys on a pointer to a struct. -/
theorem ObjectKeys_ptr_struct (fs : List (StructField × GoVal)) :
    ObjectKeys (.ptr (.struct fs)) = ObjectKeys (.struct fs) := by
  rw [ObjectKeys_struct]
  unfold ObjectKeys
  rw [Indirect_ValueOf_ptr_struct]
  simp only [Outcome.ret_bind, Value.Kind, GoVal.kind, ne_eq, not_true_eq_false, if_false,
    Value.NumField, List.range_eq_range']
  rw [ObjectKeys_loop_range fs false false true fs.length 0 .nil (by simp)]
  cases fs <;> simp

/-- ObjectKeysFlatten on a pointer to a struct, in closed form. -/
theorem ObjectKeysFlatten_ptr_struct (fs : List (StructField × GoVal)) :
    ObjectKeysFlatten (.ptr (.struct fs)) = flatResult fs := by
  unfold ObjectKeysFlatten
  simp only [GoVal.depth]
  unfold ObjectKeysFlatten.go
  rw [Indirect_ValueOf_ptr_struct]
  simp only [Outcome.ret_bind, Value.Kind, GoVal.kind, ne_eq, not_true_eq_false, if_false,
    Value.NumField, List.range_eq_range']
  rw [ObjectKeysFlatten_loop_range (ObjectKeysFlatten.go (GoVal.depth.depthFields fs + 1)) fs true
    ?_ fs.length 0 .nil (by simp)]
  · simp only [List.drop_zero, flatResult]
    cases hR : fieldsExported fs
    · simp
    · cases fs <;> simp [GoSlice.ofAppends, fieldsFlat]
  · intro p hp gs hgs
    apply ObjectKeysFlatten.go_struct
    have h1 := GoVal.depth_le_depthFields fs p hp
    have h2 := GoVal.depth_resolve p.2
    rw [hgs] at h2
    simp only [GoVal.depth] at h2
    omega

/-! ## Lemmas: field lookup and Get -/

/-- The quick check finds the first declared field with the name. -/
theorem FieldByName.scan_found (name : String) :
    ∀ (fields : List StructField) (i : Nat) (hasEmbeds : Bool) (k : Nat) (f : StructField),
      fields[k]? = some f → f.Name = name →
      (∀ j g, j < k → fields[j]? = some g → g.Name ≠ name) →
      (FieldByName.scan name fields i hasEmbeds).1 = some (i + k) := by
  intro fields
  induction fields with
  | nil => intro i h k f hk; simp at hk
  | cons g rest ih =>
    intro i h k f hk hn hbefore
    cases k with
    | zero =>
      simp only [List.getElem?_cons_zero, Option.some.injEq] at hk
      subst hk
      simp [FieldByName.scan, hn]
    | succ k =>
      have hg : g.Name ≠ name := hbefore 0 g (by omega) (by simp)
      simp only [List.getElem?_cons_succ] at hk
      simp only [FieldByName.scan, hg, if_false]
      rw [ih (i + 1) _ k f hk hn (fun j g2 hj hg2 => hbefore (j + 1) g2 (by omega) (by simpa using hg2))]
      congr 1; omega

/-- The quick check finds nothing when no declared field has the name. -/
theorem FieldByName.scan_none (name : String) :
    ∀ (fields : List StructField) (i : Nat) (hasEmbeds : Bool),
      (∀ g ∈ fields, g.Name ≠ name) →
      FieldByName.scan name fields i hasEmbeds =
        (none, hasEmbeds || fields.any fun g => g.Anonymous) := by
  intro fields
  induction fields with
  | nil => intro i h _; simp [FieldByName.scan]
  | cons g rest ih =>
    intro i h hall
    have hg : g.Name ≠ name := hall g (List.mem_cons_self _ _)
    simp only [FieldByName.scan, hg, if_false]
    rw [ih (i + 1) _ (fun g2 hg2 => hall g2 (List.mem_cons_of_mem _ hg2))]
    simp [Bool.or_assoc]

/-- In a valid field list the blank name is not exported. -/
theorem validFields_blank :
    ∀ (fields : List StructField), validFields fields = true →
      ∀ f ∈ fields, f.Name = "_" → f.Exported = false := by
  intro fields
  induction fields with
  | nil => intro _ f hf; cases hf
  | cons a rest ih =>
    intro hv f hf hname
    simp only [validFields, Bool.and_eq_true, Bool.or_eq_true, bne_iff_ne, ne_eq,
      Bool.not_eq_true', List.all_eq_true, beq_iff_eq] at hv
    obtain ⟨⟨⟨_, hblank⟩, _⟩, hrest⟩ := hv
    rcases List.mem_cons.mp hf with h | h
    · subst h
      rcases hblank with h1 | h1
      · exact absurd hname h1
      · exact h1
    · exact ih hrest f h hname

/-- In a valid field list a name that occurs twice is the blank name. -/
theorem validFields_dup :
    ∀ (fields : List StructField), validFields fields = true →
      ∀ (j k : Nat) (g f : StructField), j < k → fields[j]? = some g → fields[k]? = some f →
        g.Name = f.Name → f.Name = "_" := by
  intro fields
  induction fields with
  | nil => intro _ j k g f _ hg; simp at hg
  | cons a rest ih =>
    intro hv j k g f hjk hg hf hname
    simp only [validFields, Bool.and_eq_true, Bool.or_eq_true, bne_iff_ne, ne_eq,
      Bool.not_eq_true', List.all_eq_true, beq_iff_eq] at hv
    obtain ⟨⟨_, hall⟩, hrest⟩ := hv
    cases k with
    | zero => omega
    | succ k =>
      simp only [List.getElem?_cons_succ] at hf
      cases j with
      | zero =>
        simp only [List.getElem?_cons_zero, Option.some.injEq] at hg
        subst hg
        have h1 := hall f (List.getElem?_mem hf)
        rcases h1 with h1 | h1
        · exact absurd hname.symm h1
        · rw [← hname]; exact h1
      | succ j =>
        simp only [List.getElem?_cons_succ] at hg
        exact ih hrest j k g f (by omega) hg hf hname

/-- In a valid field list an exported field is the first one with its name. -/
theorem validFields_first (fields : List StructField) (hv : validFields fields = true)
    (k : Nat) (f : StructField) (hk : fields[k]? = some f) (hexp : f.Exported = true) :
    ∀ j g, j < k → fields[j]? = some g → g.Name ≠ f.Name := by
  intro j g hj hg hname
  have hb := validFields_dup fields hv j k g f hj hg hk hname
  have := validFields_blank fields hv f (List.getElem?_mem hk) hb
  rw [hexp] at this
  cases this

/-- In a valid field list no name is empty. -/
theorem validFields_nonempty :
    ∀ (fields : List StructField), validFields fields = true →
      ∀ f ∈ fields, f.Name ≠ "" := by
  intro fields
  induction fields with
  | nil => intro _ f hf; cases hf
  | cons a rest ih =>
    intro hv f hf
    simp only [validFields, Bool.and_eq_true, Bool.or_eq_true, bne_iff_ne, ne_eq,
      Bool.not_eq_true', List.all_eq_true, beq_iff_eq] at hv
    obtain ⟨⟨⟨hne, _⟩, _⟩, hrest⟩ := hv
    rcases List.mem_cons.mp hf with h | h
    · subst h; exact hne
    · exact ih hrest f h

/-- Get on a struct passed directly, in terms of the field lookup. -/
theorem Get_struct (fbnf : List StructField → String → Option (List Nat))
    (fs : List (StructField × GoVal)) (fn : String) :
    Get fbnf (.struct fs) fn =
      match structFieldByName fbnf (fs.map Prod.fst) fn with
      | none => .ret (.ifaceNil, some errNoSuchKey)
      | some [] => .panic "runtime error: index out of range"
      | some (i0 :: _) =>
        match fs[i0]? with
        | none => .panic "reflect: Field index out of range"
        | some (f, x) =>
          if f.Exported then .ret (x.dyn, none) else .ret (.ifaceNil, some errGetInterface) := by
  simp only [Get, ValueOf, TypeOf, GoVal.dyn, Value.Kind, GoVal.kind, GoVal.rtype, ne_eq,
    not_true_eq_false, if_false, FieldByName, Outcome.ret_bind]
  cases structFieldByName fbnf (fs.map Prod.fst) fn with
  | none => rfl
  | some index =>
    cases index with
    | nil => rfl
    | cons i0 tl =>
      simp only [Value.Field]
      cases h : fs[i0]? with
      | none => rfl
      | some p =>
        obtain ⟨f, x⟩ := p
        cases hE : f.Exported <;> cases hA : f.Anonymous <;>
          simp [Value.CanInterface, Value.Interface, hE, hA]

/-- The lookup of the name of a declared field that is the first with its name. -/
theorem structFieldByName_first (fbnf : List StructField → String → Option (List Nat))
    (fields : List StructField) (k : Nat) (f : StructField)
    (hk : fields[k]? = some f) (hne : f.Name ≠ "")
    (hfirst : ∀ j g, j < k → fields[j]? = some g → g.Name ≠ f.Name) :
    structFieldByName fbnf fields f.Name = some [k] := by
  have h := FieldByName.scan_found f.Name fields 0 false k f hk rfl hfirst
  simp only [structFieldByName, ne_eq, hne, not_false_eq_true, if_true, h]
  simp

/-- Get on the name of an exported declared field of a valid struct. -/
theorem Get_exported (fbnf : List StructField → String → Option (List Nat))
    (fs : List (StructField × GoVal)) (hv : validFields (fs.map Prod.fst) = true)
    (k : Nat) (f : StructField) (x : GoVal) (hk : fs[k]? = some (f, x))
    (hexp : f.Exported = true) :
    Get fbnf (.struct fs) f.Name = .ret (x.dyn, none) := by
  have hk2 : (fs.map Prod.fst)[k]? = some f := by simp [List.getElem?_map, hk]
  have hne := validFields_nonempty _ hv f (List.getElem?_mem hk2)
  have hfirst := validFields_first _ hv k f hk2 hexp
  rw [Get_struct, structFieldByName_first fbnf _ k f hk2 hne hfirst]
  simp [hk, hexp]

/-! ## Lemmas: GetVals, arguments that are not structs, Set -/

/-- The loop of GetVals when every Get succeeds. -/
theorem GetVals.loop_ok (fbnf : List StructField → String → Option (List Nat)) (i : GoVal) :
    ∀ (l : List (String × GoVal)) (r : GoSlice GoVal),
      (∀ q ∈ l, Get fbnf i q.1 = .ret (q.2, none)) →
      GetVals.loop fbnf i (l.map Prod.fst) r =
        .ret (match l with
              | [] => r
              | _ :: _ => .mk (r.elems ++ l.map Prod.snd), none) := by
  intro l
  induction l with
  | nil => intro r _; rfl
  | cons q rest ih =>
    intro r h
    have hq := h q (List.mem_cons_self _ _)
    simp only [List.map_cons, GetVals.loop, hq, Outcome.ret_bind]
    rw [ih _ (fun q2 hq2 => h q2 (List.mem_cons_of_mem _ hq2))]
    cases rest <;> simp [GoSlice.append1]

/-- The loop of GetVals stops at the first Get that returns an error. -/
theorem GetVals.loop_fail (fbnf : List StructField → String → Option (List Nat)) (i : GoVal)
    (n : String) (post : List String) (x : GoVal) (e : String)
    (hn : Get fbnf i n = .ret (x, some e)) :
    ∀ (pre : List String) (r : GoSlice GoVal),
      (∀ m ∈ pre, ∃ v, Get fbnf i m = .ret (v, none)) →
      GetVals.loop fbnf i (pre ++ n :: post) r = .ret (.mk [], some e) := by
  intro pre
  induction pre with
  | nil => intro r _; simp [GetVals.loop, hn]
  | cons m rest ih =>
    intro r h
    obtain ⟨v, hv⟩ := h m (List.mem_cons_self _ _)
    simp only [List.cons_append, GetVals.loop, hv, Outcome.ret_bind]
    exact ih _ (fun m2 hm2 => h m2 (List.mem_cons_of_mem _ hm2))

/-- Get on the name of an exported field, by membership. -/
theorem Get_exported_mem (fbnf : List StructField → String → Option (List Nat))
    (fs : List (StructField × GoVal)) (hv : validFields (fs.map Prod.fst) = true)
    (p : StructField × GoVal) (hp : p ∈ fs) (hexp : p.1.Exported = true) :
    Get fbnf (.struct fs) p.1.Name = .ret (p.2.dyn, none) := by
  obtain ⟨k, hk⟩ := List.mem_iff_getElem?.mp hp
  exact Get_exported fbnf fs hv k p.1 p.2 hk hexp

/-- A value that is neither a struct nor a pointer to a struct, seen through
`reflect.Indirect`, is not of kind Struct. -/
theorem Indirect_ValueOf_not_struct (i : GoVal) (h : i.dyn.resolve.kind ≠ .Struct) :
    ∃ v, Indirect (ValueOf i) = .ret v ∧ v.Kind ≠ .Struct := by
  unfold ValueOf
  cases hd : i.dyn with
  | leaf k d =>
    rw [hd] at h
    refine ⟨⟨some (.leaf k d), false, false, false⟩, ?_, ?_⟩
    · simp only [Indirect, Value.Kind, GoVal.kind]
      cases k <;> simp [LeafKind.toKind]
    · simpa [Value.Kind, GoVal.kind, GoVal.resolve] using h
  | ptrNil => exact ⟨Value.zero, by simp [Indirect, Value.Kind, GoVal.kind, Value.Elem],
      by simp [Value.zero, Value.Kind]⟩
  | ptr e =>
    rw [hd] at h
    exact ⟨⟨some e, false, false, true⟩, by simp [Indirect, Value.Kind, GoVal.kind, Value.Elem],
      by simpa [Value.Kind, GoVal.resolve] using h⟩
  | ifaceNil => exact ⟨Value.zero, by simp [Indirect, Value.Kind, Value.zero],
      by simp [Value.zero, Value.Kind]⟩
  | iface d =>
    exact ⟨⟨some (.iface d), false, false, false⟩, by simp [Indirect, Value.Kind, GoVal.kind],
      by simp [Value.Kind, GoVal.kind]⟩
  | struct fs => rw [hd] at h; simp [GoVal.resolve, GoVal.kind] at h

/-- A value that is not a struct, seen through `reflect.ValueOf`, is not of
kind Struct. -/
theorem ValueOf_not_struct (i : GoVal) (h : i.dyn.kind ≠ .Struct) :
    (ValueOf i).Kind ≠ .Struct := by
  unfold ValueOf
  cases hd : i.dyn <;> rw [hd] at h <;> simp [Value.Kind, Value.zero] <;> exact h

theorem GoVal.kind_of_resolve_kind (x : GoVal) (h : x.resolve.kind ≠ .Struct) :
    x.kind ≠ .Struct := by
  cases x <;> simp [GoVal.resolve, GoVal.kind] at h ⊢
  exact h

theorem fieldsExported_of_no_struct :
    ∀ (fs : List (StructField × GoVal)), (∀ p ∈ fs, p.2.resolve.kind ≠ .Struct) →
      fieldsExported fs = true := by
  intro fs
  induction fs with
  | nil => intro _; rfl
  | cons p rest ih =>
    intro h
    obtain ⟨f, x⟩ := p
    have hx := h (f, x) (List.mem_cons_self _ _)
    simp only [fieldsExported, GoVal.fieldExported_eq, GoVal.nestedExported_of_kind_ne _ hx,
      ih (fun q hq => h q (List.mem_cons_of_mem _ hq))]
    simp [hx]

theorem fieldsFlat_of_no_struct :
    ∀ (fs : List (StructField × GoVal)), (∀ p ∈ fs, p.2.resolve.kind ≠ .Struct) →
      fieldsFlat fs = fs.map fun p => p.1.Name := by
  intro fs
  induction fs with
  | nil => intro _; rfl
  | cons p rest ih =>
    intro h
    obtain ⟨f, x⟩ := p
    have hx := h (f, x) (List.mem_cons_self _ _)
    simp only [fieldsFlat, GoVal.nestedNames_eq, GoVal.flatNames_of_kind_ne _ hx,
      ih (fun q hq => h q (List.mem_cons_of_mem _ hq))]
    simp

/-- Set on a pointer to a struct panics in `FieldByName`, whatever the key and
the value. -/
theorem Set_ptr_struct (fbnf : List StructField → String → Option (List Nat))
    (assignable : GoVal → GoVal → Bool) (fs : List (StructField × GoVal))
    (k : String) (val : GoVal) :
    Set fbnf assignable (.ptr (.struct fs)) k val =
      .panic "reflect: FieldByName of non-struct type" := by
  simp [Set, TypeOf, ValueOf, GoVal.dyn, Indirect, Value.Kind, GoVal.kind, Value.Elem,
    GoVal.rtype, FieldByName]

/-! ## Lemmas: pointer arguments, unexported fields, Set and calls that return -/

theorem GoVal.dyn_dyn : ∀ x : GoVal, x.dyn.dyn = x.dyn
  | .iface d => by
    have := GoVal.dyn_dyn d
    simpa [GoVal.dyn] using this
  | .leaf _ _ => rfl
  | .ptrNil => rfl
  | .ptr _ => rfl
  | .ifaceNil => rfl
  | .struct _ => rfl

theorem ValueOf_dyn (i : GoVal) : ValueOf i.dyn = ValueOf i := by
  unfold ValueOf; rw [GoVal.dyn_dyn]

theorem TypeOf_dyn (i : GoVal) : TypeOf i.dyn = TypeOf i := by
  unfold TypeOf; rw [GoVal.dyn_dyn]

theorem ObjectKeys_dyn (i : GoVal) : ObjectKeys i.dyn = ObjectKeys i := by
  unfold ObjectKeys; rw [ValueOf_dyn]

theorem Get_dyn (fbnf : List StructField → String → Option (List Nat)) (i : GoVal)
    (fn : String) : Get fbnf i.dyn fn = Get fbnf i fn := by
  unfold Get; rw [ValueOf_dyn, TypeOf_dyn]

/-- A value that, after one pointer level, is a struct is a struct or a
pointer to one. -/
theorem GoVal.resolve_struct_cases (x : GoVal) (h : x.resolve.kind = .Struct) :
    (∃ fs, x = .struct fs) ∨ (∃ fs, x = .ptr (.struct fs)) := by
  cases x with
  | ptr e =>
    obtain ⟨fs, hfs⟩ := GoVal.eq_struct_of_kind e (by simpa [GoVal.resolve] using h)
    exact Or.inr ⟨fs, by rw [hfs]⟩
  | struct fs => exact Or.inl ⟨fs, rfl⟩
  | leaf k d => exact absurd h (by cases k <;> simp [GoVal.resolve, GoVal.kind, LeafKind.toKind])
  | ptrNil => simp [GoVal.resolve, GoVal.kind] at h
  | ifaceNil => simp [GoVal.resolve, GoVal.kind] at h
  | iface d => simp [GoVal.resolve, GoVal.kind] at h

/-- ObjectKeys returns on every argument. -/
theorem ObjectKeys_returns (i : GoVal) : ∃ r e, ObjectKeys i = .ret (r, e) := by
  by_cases h : i.dyn.resolve.kind = .Struct
  · rw [← ObjectKeys_dyn]
    rcases GoVal.resolve_struct_cases _ h with ⟨fs, hfs⟩ | ⟨fs, hfs⟩
    · rw [hfs, ObjectKeys_struct]; exact ⟨_, _, rfl⟩
    · rw [hfs, ObjectKeys_ptr_struct, ObjectKeys_struct]; exact ⟨_, _, rfl⟩
  · obtain ⟨v, hv, hk⟩ := Indirect_ValueOf_not_struct i h
    exact ⟨.nil, some errStructOrPtr, by simp [ObjectKeys, hv, hk]⟩

/-- Get on an argument that is not a struct. -/
theorem Get_not_struct (fbnf : List StructField → String → Option (List Nat)) (i : GoVal)
    (fn : String) (h : i.dyn.kind ≠ .Struct) :
    Get fbnf i fn = .ret (.ifaceNil, some errMustBeStruct) := by
  have hk := ValueOf_not_struct i h
  simp [Get, hk]

/-- Set on a struct passed directly, in terms of the field lookup: an error in
every case that returns, and the argument unchanged. -/
theorem Set_struct (fbnf : List StructField → String → Option (List Nat))
    (assignable : GoVal → GoVal → Bool) (fs : List (StructField × GoVal))
    (k : String) (val : GoVal) :
    Set fbnf assignable (.struct fs) k val =
      match structFieldByName fbnf (fs.map Prod.fst) k with
      | none => .ret (some errNoSuchKey, .struct fs)
      | some [] => .panic "runtime error: index out of range"
      | some (i0 :: _) =>
        match fs[i0]? with
        | none => .panic "reflect: Field index out of range"
        | some (f, _) =>
          if f.Exported then .ret (some errCantSet, .struct fs)
          else .ret (some errSetInterface, .struct fs) := by
  simp only [Set, ValueOf, TypeOf, GoVal.dyn, Indirect, Value.Kind, GoVal.kind, GoVal.rtype,
    ne_eq, not_true_eq_false, if_false, FieldByName, Outcome.ret_bind]
  simp only [reduceCtorEq, not_false_eq_true, if_true, Outcome.ret_bind, not_true_eq_false,
    if_false]
  cases structFieldByName fbnf (fs.map Prod.fst) k with
  | none => rfl
  | some index =>
    cases index with
    | nil => rfl
    | cons i0 tl =>
      simp only [Value.Field]
      cases h : fs[i0]? with
      | none => rfl
      | some p =>
        obtain ⟨f, x⟩ := p
        cases hE : f.Exported <;> cases hA : f.Anonymous <;>
          simp [Value.CanInterface, Value.CanSet, hE, hA]

/-- The quick check finds a declared field with the name whenever there is one. -/
theorem FieldByName.scan_exists (name : String) :
    ∀ (fields : List StructField) (i : Nat) (hasEmbeds : Bool),
      (∃ g ∈ fields, g.Name = name) →
      ∃ j g, fields[j]? = some g ∧ g.Name = name ∧
        (FieldByName.scan name fields i hasEmbeds).1 = some (i + j) := by
  intro fields
  induction fields with
  | nil => intro i h ⟨g, hg, _⟩; cases hg
  | cons a rest ih =>
    intro i h ⟨g, hg, hname⟩
    by_cases ha : a.Name = name
    · exact ⟨0, a, by simp, ha, by simp [FieldByName.scan, ha]⟩
    · have hrest : ∃ g ∈ rest, g.Name = name := by
        rcases List.mem_cons.mp hg with h1 | h1
        · subst h1; exact absurd hname ha
        · exact ⟨g, h1, hname⟩
      obtain ⟨j, g2, hj, hn, hs⟩ := ih (i + 1) (h || a.Anonymous) hrest
      refine ⟨j + 1, g2, by simpa using hj, hn, ?_⟩
      simp only [FieldByName.scan, ha, if_false, hs]
      congr 1; omega

/-- In a valid field list two fields with the same name are both exported or
both not. -/
theorem validFields_same_exported (fields : List StructField)
    (hv : validFields fields = true) (j k : Nat) (g f : StructField)
    (hg : fields[j]? = some g) (hf : fields[k]? = some f) (hname : g.Name = f.Name) :
    g.Exported = f.Exported := by
  rcases Nat.lt_trichotomy j k with h | h | h
  · have hb := validFields_dup fields hv j k g f h hg hf hname
    rw [validFields_blank fields hv f (List.getElem?_mem hf) hb,
      validFields_blank fields hv g (List.getElem?_mem hg) (by rw [hname]; exact hb)]
  · subst h
    rw [hg] at hf
    cases hf; rfl
  · have hb := validFields_dup fields hv k j f g h hf hg hname.symm
    rw [validFields_blank fields hv g (List.getElem?_mem hg) hb,
      validFields_blank fields hv f (List.getElem?_mem hf) (by rw [← hname]; exact hb)]

/-- The lookup of the name of a declared field of a valid struct finds a
declared field with that name and the same export status. -/
theorem structFieldByName_declared (fbnf : List StructField → String → Option (List Nat))
    (fields : List StructField) (hv : validFields fields = true)
    (f : StructField) (hf : f ∈ fields) :
    ∃ j g, fields[j]? = some g ∧ g.Name = f.Name ∧ g.Exported = f.Exported ∧
      structFieldByName fbnf fields f.Name = some [j] := by
  obtain ⟨j, g, hj, hn, hs⟩ := FieldByName.scan_exists f.Name fields 0 false ⟨f, hf, rfl⟩
  obtain ⟨k, hk⟩ := List.mem_iff_getElem?.mp hf
  refine ⟨j, g, hj, hn, validFields_same_exported fields hv j k g f hj hk hn, ?_⟩
  have hne := validFields_nonempty fields hv f hf
  simp only [structFieldByName, ne_eq, hne, not_false_eq_true, if_true, hs]
  simp

/-- Get on the name of an unexported declared field of a valid struct. -/
theorem Get_unexported (fbnf : List StructField → String → Option (List Nat))
    (fs : List (StructField × GoVal)) (hv : validFields (fs.map Prod.fst) = true)
    (p : StructField × GoVal) (hp : p ∈ fs) (hexp : p.1.Exported = false) :
    Get fbnf (.struct fs) p.1.Name = .ret (.ifaceNil, some errGetInterface) := by
  obtain ⟨j, g, hj, _, hge, hlook⟩ :=
    structFieldByName_declared fbnf (fs.map Prod.fst) hv p.1 (List.mem_map_of_mem _ hp)
  rw [Get_struct, hlook]
  rw [List.getElem?_map] at hj
  cases hq : fs[j]? with
  | none => rw [hq] at hj; cases hj
  | some q =>
    rw [hq] at hj
    simp only [Option.map_some', Option.some.injEq] at hj
    obtain ⟨f2, x2⟩ := q
    simp only at hj
    subst hj
    simp [hq, hge, hexp]

/-- Set on the name of an exported declared field of a valid struct passed
directly. -/
theorem Set_exported (fbnf : List StructField → String → Option (List Nat))
    (assignable : GoVal → GoVal → Bool)
    (fs : List (StructField × GoVal)) (hv : validFields (fs.map Prod.fst) = true)
    (p : StructField × GoVal) (hp : p ∈ fs) (hexp : p.1.Exported = true) (val : GoVal) :
    Set fbnf assignable (.struct fs) p.1.Name val = .ret (some errCantSet, .struct fs) := by
  obtain ⟨j, g, hj, _, hge, hlook⟩ :=
    structFieldByName_declared fbnf (fs.map Prod.fst) hv p.1 (List.mem_map_of_mem _ hp)
  rw [Set_struct, hlook]
  rw [List.getElem?_map] at hj
  cases hq : fs[j]? with
  | none => rw [hq] at hj; cases hj
  | some q =>
    rw [hq] at hj
    simp only [Option.map_some', Option.some.injEq] at hj
    obtain ⟨f2, x2⟩ := q
    simp only at hj
    subst hj
    simp [hq, hge, hexp]

/-- Set returns an error and leaves its argument as it was, or panics: it never
returns a nil error. -/
theorem Set_error_or_panic (fbnf : List StructField → String → Option (List Nat))
    (assignable : GoVal → GoVal → Bool) (i : GoVal) (k : String) (val : GoVal) :
    (∃ e, Set fbnf assignable i k val = .ret (some e, i)) ∨
    (∃ m, Set fbnf assignable i k val = .panic m) := by
  by_cases h : i.dyn.resolve.kind = .Struct
  · rcases GoVal.resolve_struct_cases _ h with ⟨fs, hfs⟩ | ⟨fs, hfs⟩
    · have hS : Set fbnf assignable i k val =
          match structFieldByName fbnf (fs.map Prod.fst) k with
          | none => .ret (some errNoSuchKey, i)
          | some [] => .panic "runtime error: index out of range"
          | some (i0 :: _) =>
            match fs[i0]? with
            | none => .panic "reflect: Field index out of range"
            | some (f, _) =>
              if f.Exported then .ret (some errCantSet, i)
              else .ret (some errSetInterface, i) := by
        simp only [Set, ValueOf, TypeOf, hfs, Indirect, Value.Kind, GoVal.kind, GoVal.rtype,
          ne_eq, not_true_eq_false, if_false, FieldByName, Outcome.ret_bind]
        simp only [reduceCtorEq, not_false_eq_true, if_true, Outcome.ret_bind,
          not_true_eq_false, if_false]
        cases structFieldByName fbnf (fs.map Prod.fst) k with
        | none => rfl
        | some index =>
          cases index with
          | nil => rfl
          | cons i0 tl =>
            simp only [Value.Field]
            cases h : fs[i0]? with
            | none => rfl
            | some p =>
              obtain ⟨f, x⟩ := p
              cases hE : f.Exported <;> cases hA : f.Anonymous <;>
                simp [Value.CanInterface, Value.CanSet, hE, hA]
      rw [hS]
      split
      · exact Or.inl ⟨_, rfl⟩
      · exact Or.inr ⟨_, rfl⟩
      · split
        · exact Or.inr ⟨_, rfl⟩
        · split
          · exact Or.inl ⟨_, rfl⟩
          · exact Or.inl ⟨_, rfl⟩
    · refine Or.inr ⟨"reflect: FieldByName of non-struct type", ?_⟩
      simp [Set, TypeOf, ValueOf, hfs, Indirect, Value.Kind, GoVal.kind, Value.Elem,
        GoVal.rtype, FieldByName]
  · obtain ⟨v, hv, hk⟩ := Indirect_ValueOf_not_struct i h
    exact Or.inl ⟨errMustBeStruct, by simp [Set, hv, hk]⟩

/-- GetVals on a pointer to a struct with at least one field: the first Get
refuses the pointer. -/
theorem GetVals_ptr_struct (fbnf : List StructField → String → Option (List Nat))
    (fs : List (StructField × GoVal)) (h : fs ≠ []) :
    GetVals fbnf (.ptr (.struct fs)) = .ret (.mk [], some errMustBeStruct) := by
  cases fs with
  | nil => exact absurd rfl h
  | cons q rest =>
    have hget : ∀ fn, Get fbnf (.ptr (.struct (q :: rest))) fn =
        .ret (.ifaceNil, some errMustBeStruct) :=
      fun fn => Get_not_struct fbnf _ fn (by simp [GoVal.dyn, GoVal.kind])
    simp [GetVals, ObjectKeys_ptr_struct, ObjectKeys_struct, GoSlice.len, GetVals.loop, hget]

/-- GetVals on a pointer that does not point to a struct: the error of
ObjectKeys. -/
theorem GetVals_ptr_not_struct (fbnf : List StructField → String → Option (List Nat))
    (i : GoVal) (h : i.dyn.resolve.kind ≠ .Struct) :
    GetVals fbnf i = .ret (.mk [], some errStructOrPtr) := by
  obtain ⟨v, hv, hk⟩ := Indirect_ValueOf_not_struct i h
  simp [GetVals, ObjectKeys, hv, hk]

/-- The value handed to the recursive call is of kind Struct. -/
theorem Value.Interface_kind_struct (v : Value) (fi : GoVal)
    (hk : v.Kind = .Struct) (hi : v.Interface = .ret fi) : fi.kind = .Struct := by
  obtain ⟨d, s, e, a⟩ := v
  cases d with
  | none => simp [Value.Kind] at hk
  | some x =>
    obtain ⟨gs, hgs⟩ := GoVal.eq_struct_of_kind x (by simpa [Value.Kind] using hk)
    subst hgs
    simp only [Value.Interface] at hi
    split at hi
    · cases hi
    · simp only [GoVal.dyn, Outcome.ret.injEq] at hi
      rw [← hi]; rfl

/-- The loop of ObjectKeysFlatten uses the recursive function only on values of
kind Struct. -/
theorem ObjectKeysFlatten_loop_congr
    (self1 self2 : GoVal → Outcome (GoSlice String × Option String))
    (hagree : ∀ fi, fi.kind = .Struct → self1 fi = self2 fi) (v : Value) :
    ∀ (idxs : List Nat) (r : GoSlice String),
      ObjectKeysFlatten.loop self1 v idxs r = ObjectKeysFlatten.loop self2 v idxs r := by
  intro idxs
  induction idxs with
  | nil => intro r; rfl
  | cons i rest ih =>
    intro r
    simp only [ObjectKeysFlatten.loop]
    cases (v.Type.bind fun t => t.Field i) with
    | panic m => rfl
    | ret ft =>
      cases v.Field i with
      | panic m => rfl
      | ret fv =>
        simp only [Outcome.ret_bind]
        cases (if fv.Kind = Kind.Ptr then fv.Elem else Outcome.ret fv) with
        | panic m => rfl
        | ret fv2 =>
          simp only [Outcome.ret_bind]
          by_cases hk : fv2.Kind = .Struct
          · simp only [hk, if_true]
            cases hI : fv2.Interface with
            | panic m => rfl
            | ret fi =>
              simp only [Outcome.ret_bind]
              rw [hagree fi (Value.Interface_kind_struct fv2 fi hk hI)]
              cases self2 fi with
              | panic m => rfl
              | ret p => simp only [Outcome.ret_bind]; exact ih _
          · simp only [hk, if_false]; exact ih _

/-- A call of ObjectKeysFlatten on a value of kind Struct that returns, returns
a nil error. -/
theorem ObjectKeysFlatten.go_struct_error (fuel : Nat) (fi : GoVal)
    (r : GoSlice String) (e : Option String) (hk : fi.kind = .Struct)
    (h : ObjectKeysFlatten.go fuel fi = .ret (r, e)) : e = none := by
  obtain ⟨gs, hgs⟩ := GoVal.eq_struct_of_kind fi hk
  subst hgs
  cases fuel with
  | zero => simp [ObjectKeysFlatten.go] at h
  | succ fuel =>
    unfold ObjectKeysFlatten.go at h
    rw [Indirect_ValueOf_struct] at h
    simp only [Outcome.ret_bind, Value.Kind, GoVal.kind, ne_eq, not_true_eq_false, if_false,
      Value.NumField] at h
    cases hl : ObjectKeysFlatten.loop (ObjectKeysFlatten.go fuel)
        ⟨some (.struct gs), false, false, false⟩ (List.range gs.length) .nil with
    | panic m => rw [hl] at h; simp at h
    | ret r2 =>
      rw [hl] at h
      simp only [Outcome.ret_bind, Outcome.ret.injEq, Prod.mk.injEq] at h
      exact h.2.symm

theorem fieldsFlat_append (pre post : List (StructField × GoVal)) :
    fieldsFlat (pre ++ post) = fieldsFlat pre ++ fieldsFlat post := by
  induction pre with
  | nil => rfl
  | cons p rest ih =>
    obtain ⟨f, x⟩ := p
    simp [fieldsFlat, ih]

theorem fieldsExported_append (pre post : List (StructField × GoVal)) :
    fieldsExported (pre ++ post) = (fieldsExported pre && fieldsExported post) := by
  induction pre with
  | nil => simp [fieldsExported]
  | cons p rest ih =>
    obtain ⟨f, x⟩ := p
    simp [fieldsExported, ih, Bool.and_assoc]

/-- ObjectKeysFlatten on a struct with a nil pointer field: the field adds its
name once and nothing else, and whether the call returns is decided by the
other fields. -/
theorem ObjectKeysFlatten_nil_ptr_field (pre post : List (StructField × GoVal))
    (f : StructField) :
    ObjectKeysFlatten (.struct (pre ++ (f, .ptrNil) :: post)) =
      if fieldsExported pre && fieldsExported post then
        .ret (.mk (fieldsFlat pre ++ f.Name :: fieldsFlat post), none)
      else .panic panicInterfaceRO := by
  rw [ObjectKeysFlatten_struct, flatResult, fieldsExported_append, fieldsFlat_append]
  simp only [fieldsExported, fieldsFlat, GoVal.fieldExported, GoVal.nestedNames, Bool.true_and,
    List.nil_append]
  cases hE : (fieldsExported pre && fieldsExported post)
  · simp
  · simp only [if_true]
    cases pre <;> simp [GoSlice.ofAppends, fieldsFlat]

/-- The declared names are a subsequence of the flattened listing. -/
theorem fieldsFlat_sublist :
    ∀ fs : List (StructField × GoVal),
      (fs.map fun p => p.1.Name).Sublist (fieldsFlat fs) := by
  intro fs
  induction fs with
  | nil => exact List.Sublist.slnil
  | cons p rest ih =>
    obtain ⟨f, x⟩ := p
    simp only [List.map_cons, fieldsFlat]
    exact List.Sublist.cons₂ _ (List.Sublist.trans ih (List.sublist_append_right _ _))

theorem fieldsFlat_eq_nil (gs : List (StructField × GoVal)) :
    fieldsFlat gs = [] ↔ gs = [] := by
  cases gs with
  | nil => simp [fieldsFlat]
  | cons p rest => obtain ⟨f, x⟩ := p; simp [fieldsFlat]

/-- The flattened listing is as long as the declared names exactly when no
nested struct has a field. -/
theorem fieldsFlat_length :
    ∀ fs : List (StructField × GoVal),
      fs.length ≤ (fieldsFlat fs).length ∧
      ((fieldsFlat fs).length = fs.length ↔
        ∀ p ∈ fs, ∀ gs, p.2.resolve = .struct gs → gs = []) := by
  intro fs
  induction fs with
  | nil => simp [fieldsFlat]
  | cons p rest ih =>
    obtain ⟨f, x⟩ := p
    obtain ⟨hle, hiff⟩ := ih
    simp only [fieldsFlat, GoVal.nestedNames_eq, List.length_cons, List.length_append,
      List.mem_cons, forall_eq_or_imp]
    have hx : x.resolve.flatNames.length = 0 ↔ ∀ gs, x.resolve = .struct gs → gs = [] := by
      by_cases hs : x.resolve.kind = .Struct
      · obtain ⟨gs, hgs⟩ := GoVal.eq_struct_of_kind _ hs
        rw [hgs]
        simp only [GoVal.flatNames, List.length_eq_zero, fieldsFlat_eq_nil]
        constructor
        · intro h gs2 h2; cases h2; exact h
        · intro h; exact h gs rfl
      · rw [GoVal.flatNames_of_kind_ne _ hs]
        simp only [List.length_nil, true_iff]
        intro gs hgs
        rw [hgs] at hs
        exact absurd rfl hs
    constructor
    · omega
    · rw [← hx, ← hiff]
      constructor
      · intro h; constructor <;> omega
      · intro ⟨h1, h2⟩; omega

/-- An index found by the quick check is the index of a declared field. -/
theorem FieldByName.scan_lt (name : String) :
    ∀ (fields : List StructField) (i : Nat) (hasEmbeds : Bool) (j : Nat),
      (FieldByName.scan name fields i hasEmbeds).1 = some j → j < i + fields.length := by
  intro fields
  induction fields with
  | nil => intro i h j hj; simp [FieldByName.scan] at hj
  | cons a rest ih =>
    intro i h j hj
    simp only [FieldByName.scan] at hj
    split at hj
    · simp only [Option.some.injEq] at hj
      simp only [List.length_cons]; omega
    · have := ih (i + 1) _ j hj
      simp only [List.length_cons]; omega

/-- The field lookup gives the index of a declared field when the search for
promoted fields does. -/
theorem structFieldByName_in_range (fbnf : List StructField → String → Option (List Nat))
    (hfbnf : ∀ fields name idx, fbnf fields name = some idx →
      ∃ i0 tl, idx = i0 :: tl ∧ i0 < fields.length)
    (fields : List StructField) (name : String) (idx : List Nat)
    (h : structFieldByName fbnf fields name = some idx) :
    ∃ i0 tl, idx = i0 :: tl ∧ i0 < fields.length := by
  unfold structFieldByName at h
  by_cases hn : name = ""
  · simp [hn] at h
  · simp only [ne_eq, hn, not_false_eq_true, if_true] at h
    cases hs : (FieldByName.scan name fields 0 false).1 with
    | some j =>
      rw [hs] at h
      simp only [Option.some.injEq] at h
      have := FieldByName.scan_lt name fields 0 false j hs
      exact ⟨j, [], h.symm, by omega⟩
    | none =>
      rw [hs] at h
      simp only at h
      cases h2 : (FieldByName.scan name fields 0 false).2
      · rw [h2] at h; simp at h
      · rw [h2] at h
        simp only [Bool.not_true, Bool.false_eq_true, if_false] at h
        exact hfbnf fields name idx h

/-- Get returns on every argument and name, given that the search for promoted
fields reports the index of a declared field, as reflect does. -/
theorem Get_returns (fbnf : List StructField → String → Option (List Nat))
    (hfbnf : ∀ fields name idx, fbnf fields name = some idx →
      ∃ i0 tl, idx = i0 :: tl ∧ i0 < fields.length)
    (i : GoVal) (fn : String) : ∃ x e, Get fbnf i fn = .ret (x, e) := by
  by_cases h : i.dyn.kind = .Struct
  · obtain ⟨fs, hfs⟩ := GoVal.eq_struct_of_kind _ h
    rw [← Get_dyn, hfs, Get_struct]
    cases hl : structFieldByName fbnf (fs.map Prod.fst) fn with
    | none => exact ⟨_, _, rfl⟩
    | some idx =>
      obtain ⟨i0, tl, hidx, hlt⟩ := structFieldByName_in_range fbnf hfbnf _ fn idx hl
      subst hidx
      have hlt2 : i0 < fs.length := by simpa using hlt
      simp only [List.getElem?_eq_getElem hlt2]
      split <;> exact ⟨_, _, rfl⟩
  · exact ⟨_, _, Get_not_struct fbnf i fn h⟩

/-- Get returns on every declared name of a struct, whatever the search for
promoted fields does. -/
theorem Get_declared_returns (fbnf : List StructField → String → Option (List Nat))
    (fs : List (StructField × GoVal)) (n : String)
    (hn : n ∈ fs.map fun p => p.1.Name) :
    ∃ x e, Get fbnf (.struct fs) n = .ret (x, e) := by
  rw [Get_struct]
  by_cases hne : n = ""
  · subst hne
    simp only [structFieldByName, ne_eq, not_true_eq_false, if_false, Bool.not_false, if_true]
    exact ⟨_, _, rfl⟩
  · have hex : ∃ g ∈ fs.map Prod.fst, g.Name = n := by
      obtain ⟨p, hp, hpn⟩ := List.mem_map.mp hn
      exact ⟨p.1, List.mem_map_of_mem _ hp, hpn⟩
    obtain ⟨j, g, hj, _, hs⟩ := FieldByName.scan_exists n (fs.map Prod.fst) 0 false hex
    have hlook : structFieldByName fbnf (fs.map Prod.fst) n = some [j] := by
      simp only [structFieldByName, ne_eq, hne, not_false_eq_true, if_true, hs]
      simp
    rw [hlook]
    rw [List.getElem?_map] at hj
    cases hq : fs[j]? with
    | none => rw [hq] at hj; cases hj
    | some q =>
      obtain ⟨f2, x2⟩ := q
      simp only [hq]
      split <;> exact ⟨_, _, rfl⟩

/-- The loop of GetVals returns when every Get does. -/
theorem GetVals.loop_returns (fbnf : List StructField → String → Option (List Nat))
    (i : GoVal) :
    ∀ (names : List String) (r : GoSlice GoVal),
      (∀ n ∈ names, ∃ x e, Get fbnf i n = .ret (x, e)) →
      ∃ r2 e2, GetVals.loop fbnf i names r = .ret (r2, e2) := by
  intro names
  induction names with
  | nil => intro r _; exact ⟨_, _, rfl⟩
  | cons n rest ih =>
    intro r h
    obtain ⟨x, e, hx⟩ := h n (List.mem_cons_self _ _)
    simp only [GetVals.loop, hx, Outcome.ret_bind]
    cases e with
    | some e => exact ⟨_, _, rfl⟩
    | none => exact ih _ (fun n2 hn2 => h n2 (List.mem_cons_of_mem _ hn2))

theorem GetVals.loop_dyn (fbnf : List StructField → String → Option (List Nat)) (i : GoVal) :
    ∀ (names : List String) (r : GoSlice GoVal),
      GetVals.loop fbnf i.dyn names r = GetVals.loop fbnf i names r := by
  intro names
  induction names with
  | nil => intro r; rfl
  | cons n rest ih =>
    intro r
    simp only [GetVals.loop, Get_dyn]
    cases Get fbnf i n with
    | panic m => rfl
    | ret p =>
      simp only [Outcome.ret_bind]
      cases p.2 with
      | some e => rfl
      | none => exact ih _

theorem GetVals_dyn (fbnf : List StructField → String → Option (List Nat)) (i : GoVal) :
    GetVals fbnf i.dyn = GetVals fbnf i := by
  unfold GetVals
  rw [ObjectKeys_dyn]
  cases ObjectKeys i with
  | panic m => rfl
  | ret p =>
    simp only [Outcome.ret_bind]
    cases p.2 with
    | some e => rfl
    | none => simp only [GetVals.loop_dyn]

/-- GetVals returns on every argument. -/
theorem GetVals_returns (fbnf : List StructField → String → Option (List Nat)) (i : GoVal) :
    ∃ r e, GetVals fbnf i = .ret (r, e) := by
  by_cases h : i.dyn.resolve.kind = .Struct
  · rw [← GetVals_dyn]
    rcases GoVal.resolve_struct_cases _ h with ⟨fs, hfs⟩ | ⟨fs, hfs⟩
    · rw [hfs]
      cases fs with
      | nil => exact ⟨_, _, rfl⟩
      | cons q rest =>
        simp only [GetVals, ObjectKeys_struct, Outcome.ret_bind, GoSlice.len, GoSlice.elems_mk,
          List.length_map, List.length_cons, gt_iff_lt, Nat.zero_lt_succ, if_true]
        exact GetVals.loop_returns fbnf _ _ _
          (fun n hn => Get_declared_returns fbnf (q :: rest) n hn)
    · rw [hfs]
      cases fs with
      | nil => exact ⟨_, _, rfl⟩
      | cons q rest => exact ⟨_, _, GetVals_ptr_struct fbnf (q :: rest) (by simp)⟩
  · exact ⟨_, _, GetVals_ptr_not_struct fbnf i h⟩

/-- The field lookup finds nothing for a name that no declared field carries
and that the search for promoted fields does not find. -/
theorem structFieldByName_unknown (fbnf : List StructField → String → Option (List Nat))
    (fs : List (StructField × GoVal)) (fn : String)
    (hdecl : ∀ p ∈ fs, p.1.Name ≠ fn)
    (hprom : (∃ p ∈ fs, p.1.Anonymous = true) → fbnf (fs.map Prod.fst) fn = none) :
    structFieldByName fbnf (fs.map Prod.fst) fn = none := by
  have hscan := FieldByName.scan_none fn (fs.map Prod.fst) 0 false
    (by
      intro g hg
      obtain ⟨p, hp, rfl⟩ := List.mem_map.mp hg
      exact hdecl p hp)
  unfold structFieldByName
  by_cases hfn : fn = ""
  · simp [hfn]
  · simp only [ne_eq, hfn, not_false_eq_true, if_true, hscan, Bool.false_or]
    cases hany : (fs.map Prod.fst).any (fun g => g.Anonymous)
    · simp
    · simp only [Bool.not_true, Bool.false_eq_true, if_false]
      apply hprom
      obtain ⟨g, hg, hga⟩ := List.any_eq_true.mp hany
      obtain ⟨p, hp, rfl⟩ := List.mem_map.mp hg
      exact ⟨p, hp, hga⟩

/-- Get returns the can-not-interface error only for a struct and a name the
field lookup finds. -/
theorem Get_interface_error_only_for_field
    (fbnf : List StructField → String → Option (List Nat)) (i : GoVal) (fn : String) (x : GoVal)
    (h : Get fbnf i fn = .ret (x, some errGetInterface)) :
    ∃ fs idx, i.dyn = .struct fs ∧ structFieldByName fbnf (fs.map Prod.fst) fn = some idx := by
  by_cases hk : i.dyn.kind = .Struct
  · obtain ⟨fs, hfs⟩ := GoVal.eq_struct_of_kind _ hk
    rw [← Get_dyn, hfs, Get_struct] at h
    cases hl : structFieldByName fbnf (fs.map Prod.fst) fn with
    | some idx => exact ⟨fs, idx, hfs, hl⟩
    | none =>
      rw [hl] at h
      simp only [Outcome.ret.injEq, Prod.mk.injEq, Option.some.injEq] at h
      exact absurd h.2 (by decide)
  · rw [Get_not_struct fbnf i fn hk] at h
    simp only [Outcome.ret.injEq, Prod.mk.injEq, Option.some.injEq] at h
    exact absurd h.2 (by decide)

/-! ## The claims -/

/-- C1. ObjectKeys on a struct value with N declared fields returns a nil error
and exactly the N field names in declaration order, exported or not. -/
theorem C1_ObjectKeys_struct_names (fs : List (StructField × GoVal)) :
    ∃ r : GoSlice String,
      ObjectKeys (.struct fs) = .ret (r, none) ∧
      r.elems = fs.map (fun p => p.1.Name) ∧
      r.len = fs.length := by
  rw [ObjectKeys_struct]
  refine ⟨_, rfl, ?_, ?_⟩ <;> cases fs <;> simp [GoSlice.len]

/-- C2 (code at the failing input). On a struct whose unexported field holds a
struct, ObjectKeysFlatten panics in `Value.Interface`, while the reference
listing of the claim is `inner, Number`. -/
theorem C2_ObjectKeysFlatten_hidden_struct_panics :
    ObjectKeysFlatten hiddenInner = .panic panicInterfaceRO ∧
    hiddenInner.flatNames = ["inner", "Number"] := by
  constructor
  · decide
  · decide

/-- C3 (code at the failing input). `Set(&Thing{}, "Key1", "new")` does not
return: the field lookup is made on the pointer type and panics. -/
theorem C3_Set_through_pointer_panics :
    Set noPromoted (fun _ _ => true) (.ptr thingZero) "Key1" (.leaf .String "new") =
      .panic "reflect: FieldByName of non-struct type" := by
  rfl

/-- C4 (counterexample). `key1` is listed by ObjectKeys for
`UnExportedField{"this", "that"}`, yet Get on it returns a nil value and an
error. -/
theorem C4_counterexample :
    ObjectKeys (unExportedField "this" "that") = .ret (.mk ["key1", "Key2"], none) ∧
    Get noPromoted (unExportedField "this" "that") "key1" =
      .ret (.ifaceNil, some errGetInterface) := by
  constructor
  · decide
  · rfl

/-- C4 (amended). For a struct passed directly, Get succeeds, with a value and
a nil error, on every name listed by ObjectKeys that names an exported field. -/
theorem C4_Get_succeeds_on_exported_names
    (fbnf : List StructField → String → Option (List Nat))
    (fs : List (StructField × GoVal)) (hv : validFields (fs.map Prod.fst) = true)
    (names : GoSlice String) (hn : ObjectKeys (.struct fs) = .ret (names, none))
    (name : String) (hmem : name ∈ names.elems)
    (hexp : ∀ p ∈ fs, p.1.Name = name → p.1.Exported = true) :
    ∃ val, Get fbnf (.struct fs) name = .ret (val, none) := by
  rw [ObjectKeys_struct] at hn
  simp only [Outcome.ret.injEq, Prod.mk.injEq, and_true] at hn
  subst hn
  have hmem2 : name ∈ fs.map (fun p => p.1.Name) := by
    cases fs with
    | nil => simp at hmem
    | cons q rest => simpa using hmem
  obtain ⟨p, hp, hpn⟩ := List.mem_map.mp hmem2
  subst hpn
  exact ⟨p.2.dyn, Get_exported_mem fbnf fs hv p hp (hexp p hp rfl)⟩

/-- C4 (amended), at `GetFieldStruct{"result1", InnerGet{3}}` and the name
`Inner`. -/
theorem C4_Get_succeeds_on_exported_names_witness :
    ∃ val, Get noPromoted (getFieldStruct "result1" (innerGet "3")) "Inner" =
      .ret (val, none) :=
  C4_Get_succeeds_on_exported_names noPromoted
    [(fld "Key1" true, .leaf .String "result1"), (fld "Inner" true, innerGet "3")]
    (by decide) (.mk ["Key1", "Inner"]) (by decide) "Inner" (by decide)
    (by simp [fld])

/-- C5 (counterexample). GetVals on `UnExportedField{"this", "that"}` returns an
error and no values. -/
theorem C5_counterexample :
    GetVals noPromoted (unExportedField "this" "that") =
      .ret (.mk [], some errGetInterface) := by
  rfl

/-- C5 (amended). For a struct passed directly whose fields are all exported,
GetVals returns a nil error and exactly the results of Get on the names listed
by ObjectKeys, in the same order: the values stored in the fields. -/
theorem C5_GetVals_all_exported
    (fbnf : List StructField → String → Option (List Nat))
    (fs : List (StructField × GoVal)) (hv : validFields (fs.map Prod.fst) = true)
    (hexp : ∀ p ∈ fs, p.1.Exported = true) :
    ∃ (names : GoSlice String) (vals : GoSlice GoVal),
      ObjectKeys (.struct fs) = .ret (names, none) ∧
      GetVals fbnf (.struct fs) = .ret (vals, none) ∧
      names.elems.map (Get fbnf (.struct fs)) = vals.elems.map (fun v => .ret (v, none)) ∧
      vals.elems = fs.map (fun p => p.2.dyn) := by
  have hget : ∀ p ∈ fs, Get fbnf (.struct fs) p.1.Name = .ret (p.2.dyn, none) :=
    fun p hp => Get_exported_mem fbnf fs hv p hp (hexp p hp)
  cases fs with
  | nil => exact ⟨.nil, .nil, rfl, rfl, rfl, rfl⟩
  | cons q rest =>
    refine ⟨.mk ((q :: rest).map fun p : StructField × GoVal => p.1.Name),
      .mk ((q :: rest).map fun p : StructField × GoVal => p.2.dyn),
      ObjectKeys_struct _, ?_, ?_, rfl⟩
    · have hl := GetVals.loop_ok fbnf (.struct (q :: rest))
        ((q :: rest).map fun p : StructField × GoVal => (p.1.Name, p.2.dyn)) .nil
        (by
          intro z hz
          obtain ⟨p, hp, rfl⟩ := List.mem_map.mp hz
          exact hget p hp)
      simp only [GetVals, ObjectKeys_struct, Outcome.ret_bind, GoSlice.len, GoSlice.elems_mk,
        List.length_map, List.length_cons, gt_iff_lt, Nat.zero_lt_succ, if_true]
      simp only [List.map_map, List.map_cons] at hl
      simpa using hl
    · simp only [GoSlice.elems_mk, List.map_map]
      apply List.map_congr_left
      intro p hp
      exact hget p hp

/-- C5 (amended), at `GetFieldStruct{"result1", InnerGet{3}}`. -/
theorem C5_GetVals_all_exported_witness :
    ∃ (names : GoSlice String) (vals : GoSlice GoVal),
      ObjectKeys (getFieldStruct "result1" (innerGet "3")) = .ret (names, none) ∧
      GetVals noPromoted (getFieldStruct "result1" (innerGet "3")) = .ret (vals, none) ∧
      names.elems.map (Get noPromoted (getFieldStruct "result1" (innerGet "3"))) =
        vals.elems.map (fun v => .ret (v, none)) ∧
      vals.elems = [GoVal.leaf .String "result1", innerGet "3"] :=
  C5_GetVals_all_exported noPromoted
    [(fld "Key1" true, .leaf .String "result1"), (fld "Inner" true, innerGet "3")]
    (by decide) (by simp [fld])

/-- C6. For a struct passed directly, Get on the name of an exported declared
field returns the value stored in that field, whole, and a nil error. -/
theorem C6_Get_returns_stored_value
    (fbnf : List StructField → String → Option (List Nat))
    (fs : List (StructField × GoVal)) (hv : validFields (fs.map Prod.fst) = true)
    (f : StructField) (x : GoVal) (hmem : (f, x) ∈ fs) (hexp : f.Exported = true) :
    Get fbnf (.struct fs) f.Name = .ret (x.dyn, none) :=
  Get_exported_mem fbnf fs hv (f, x) hmem hexp

/-- C6, at `GetFieldStruct{"result1", InnerGet{3}}` and the struct field
`Inner`. -/
theorem C6_Get_returns_stored_value_witness :
    Get noPromoted (getFieldStruct "result1" (innerGet "3")) "Inner" =
      .ret (innerGet "3", none) :=
  C6_Get_returns_stored_value noPromoted
    [(fld "Key1" true, .leaf .String "result1"), (fld "Inner" true, innerGet "3")]
    (by decide) (fld "Inner" true) (innerGet "3") (by simp) rfl

/-- C7. On an argument that is neither a struct nor a pointer to a struct the
four operations return their not-a-struct error and nothing else: a nil name
list from ObjectKeys and ObjectKeysFlatten, a nil value from Get, and Set
leaves the argument as it was; for every field name and new value. -/
theorem C7_not_a_struct_is_rejected
    (fbnf : List StructField → String → Option (List Nat))
    (assignable : GoVal → GoVal → Bool)
    (i : GoVal) (fn : String) (val : GoVal) (h : i.dyn.resolve.kind ≠ .Struct) :
    ObjectKeys i = .ret (.nil, some errStructOrPtr) ∧
    ObjectKeysFlatten i = .ret (.nil, some errStructOrPtr) ∧
    Get fbnf i fn = .ret (.ifaceNil, some errMustBeStruct) ∧
    Set fbnf assignable i fn val = .ret (some errMustBeStruct, i) := by
  obtain ⟨v, hv, hk⟩ := Indirect_ValueOf_not_struct i h
  have hk2 := ValueOf_not_struct i (GoVal.kind_of_resolve_kind _ h)
  refine ⟨?_, ?_, ?_, ?_⟩
  · simp [ObjectKeys, hv, hk]
  · simp [ObjectKeysFlatten, ObjectKeysFlatten.go, hv, hk]
  · simp [Get, hk2]
  · simp [Set, hv, hk]

/-- C7, at the slice `SliceThing{}`. -/
theorem C7_not_a_struct_is_rejected_witness :
    ObjectKeys sliceThing = .ret (.nil, some errStructOrPtr) ∧
    ObjectKeysFlatten sliceThing = .ret (.nil, some errStructOrPtr) ∧
    Get noPromoted sliceThing "Key1" = .ret (.ifaceNil, some errMustBeStruct) ∧
    Set noPromoted (fun _ _ => true) sliceThing "Key1" (.leaf .String "new") =
      .ret (some errMustBeStruct, sliceThing) :=
  C7_not_a_struct_is_rejected noPromoted (fun _ _ => true) sliceThing "Key1"
    (.leaf .String "new") (by decide)

/-- C8. For a struct passed directly and a string that names no field of its
type (no declared field, and none promoted through an embedded field), Get
returns a nil value and the no-such-key error. -/
theorem C8_Get_unknown_field
    (fbnf : List StructField → String → Option (List Nat))
    (fs : List (StructField × GoVal)) (fn : String)
    (hdecl : ∀ p ∈ fs, p.1.Name ≠ fn)
    (hprom : (∃ p ∈ fs, p.1.Anonymous = true) → fbnf (fs.map Prod.fst) fn = none) :
    Get fbnf (.struct fs) fn = .ret (.ifaceNil, some errNoSuchKey) := by
  have hscan := FieldByName.scan_none fn (fs.map Prod.fst) 0 false
    (by
      intro g hg
      obtain ⟨p, hp, rfl⟩ := List.mem_map.mp hg
      exact hdecl p hp)
  have hlook : structFieldByName fbnf (fs.map Prod.fst) fn = none := by
    unfold structFieldByName
    by_cases hfn : fn = ""
    · simp [hfn]
    · simp only [ne_eq, hfn, not_false_eq_true, if_true, hscan, Bool.false_or]
      cases hany : (fs.map Prod.fst).any (fun g => g.Anonymous)
      · simp
      · simp only [Bool.not_true, Bool.false_eq_true, if_false]
        apply hprom
        obtain ⟨g, hg, hga⟩ := List.any_eq_true.mp hany
        obtain ⟨p, hp, rfl⟩ := List.mem_map.mp hg
        exact ⟨p, hp, hga⟩
  rw [Get_struct, hlook]

/-- C8, at `GetFieldStruct{"result1", InnerGet{3}}` and the name `Foo`. -/
theorem C8_Get_unknown_field_witness :
    Get noPromoted (getFieldStruct "result1" (innerGet "3")) "Foo" =
      .ret (.ifaceNil, some errNoSuchKey) :=
  C8_Get_unknown_field noPromoted
    [(fld "Key1" true, .leaf .String "result1"), (fld "Inner" true, innerGet "3")] "Foo"
    (by simp [fld]) (fun _ => rfl)

/-- C9. GetVals returns an allocated empty slice and the error, with no partial
result, both when ObjectKeys returns an error and when a Get returns an error
after the Gets on all earlier names succeeded: the error is that of ObjectKeys,
or else that of the first failing Get in field order. -/
theorem C9_GetVals_error_no_values
    (fbnf : List StructField → String → Option (List Nat)) (i : GoVal) :
    (∀ (r : GoSlice String) (e : String),
      ObjectKeys i = .ret (r, some e) → GetVals fbnf i = .ret (.mk [], some e)) ∧
    (∀ (names : GoSlice String) (pre : List String) (n : String) (post : List String)
        (x : GoVal) (e : String),
      ObjectKeys i = .ret (names, none) →
      names.elems = pre ++ n :: post →
      (∀ m ∈ pre, ∃ v, Get fbnf i m = .ret (v, none)) →
      Get fbnf i n = .ret (x, some e) →
      GetVals fbnf i = .ret (.mk [], some e)) := by
  constructor
  · intro r e h
    simp [GetVals, h]
  · intro names pre n post x e h hnames hpre hn
    have hlen : names.len > 0 := by simp [GoSlice.len, hnames]
    simp only [GetVals, h, Outcome.ret_bind, hlen, if_true, hnames]
    exact GetVals.loop_fail fbnf i n post x e hn pre .nil hpre

/-- C9, at a slice (ObjectKeys fails) and at a struct whose second field is
unexported (the first Get succeeds, the second fails). -/
theorem C9_GetVals_error_no_values_witness :
    GetVals noPromoted sliceThing = .ret (.mk [], some errStructOrPtr) ∧
    GetVals noPromoted exportedThenHidden = .ret (.mk [], some errGetInterface) :=
  ⟨(C9_GetVals_error_no_values noPromoted sliceThing).1 .nil errStructOrPtr (by decide),
   (C9_GetVals_error_no_values noPromoted exportedThenHidden).2 (.mk ["Key2", "key1"])
     ["Key2"] "key1" [] .ifaceNil errGetInterface (by decide) rfl
     (by
       intro m hm
       simp only [List.mem_singleton] at hm
       subst hm
       exact ⟨.leaf .String "that", rfl⟩)
     rfl⟩

/-- C10. For a struct with no field whose value, after resolving one pointer
level, is a struct, ObjectKeysFlatten returns what ObjectKeys returns. -/
theorem C10_flatten_without_nested_structs (fs : List (StructField × GoVal))
    (h : ∀ p ∈ fs, p.2.resolve.kind ≠ .Struct) :
    ObjectKeysFlatten (.struct fs) = ObjectKeys (.struct fs) := by
  rw [ObjectKeysFlatten_struct, ObjectKeys_struct, flatResult, fieldsExported_of_no_struct fs h,
    fieldsFlat_of_no_struct fs h]
  cases fs <;> simp [GoSlice.ofAppends]

/-- C10, at `UnExportedField{"this", "that"}`. -/
theorem C10_flatten_without_nested_structs_witness :
    ObjectKeysFlatten (unExportedField "this" "that") =
      ObjectKeys (unExportedField "this" "that") :=
  C10_flatten_without_nested_structs
    [(fld "key1" false, .leaf .String "this"), (fld "Key2" true, .leaf .String "that")]
    (by simp [GoVal.resolve, GoVal.kind, LeafKind.toKind])

/-- C11 (code at the failing input). On a struct whose unexported field points
to a struct, ObjectKeysFlatten panics in `Value.Interface` and returns neither
names nor an error, while ObjectKeys lists the same fields, the unexported one
included. -/
theorem C11_ObjectKeysFlatten_unexported_struct_panics :
    ObjectKeysFlatten hiddenPtrField = .panic panicInterfaceRO ∧
    ObjectKeys hiddenPtrField = .ret (.mk ["Key2", "inner"], none) := by
  constructor
  · decide
  · decide

/-- C12. For a struct passed to Set directly and the name of an exported
declared field, Set returns the can-not-set error for every new value and
leaves the struct as it was. -/
theorem C12_Set_direct_struct_not_settable
    (fbnf : List StructField → String → Option (List Nat))
    (assignable : GoVal → GoVal → Bool)
    (fs : List (StructField × GoVal)) (hv : validFields (fs.map Prod.fst) = true)
    (f : StructField) (x : GoVal) (hmem : (f, x) ∈ fs) (hexp : f.Exported = true)
    (val : GoVal) :
    Set fbnf assignable (.struct fs) f.Name val = .ret (some errCantSet, .struct fs) :=
  Set_exported fbnf assignable fs hv (f, x) hmem hexp val

/-- C12, at `GetFieldStruct{"result1", InnerGet{3}}`, the field `Key1` and a
new string. -/
theorem C12_Set_direct_struct_not_settable_witness :
    Set noPromoted (fun _ _ => true) (getFieldStruct "result1" (innerGet "3")) "Key1"
        (.leaf .String "new") =
      .ret (some errCantSet, getFieldStruct "result1" (innerGet "3")) :=
  C12_Set_direct_struct_not_settable noPromoted (fun _ _ => true)
    [(fld "Key1" true, .leaf .String "result1"), (fld "Inner" true, innerGet "3")]
    (by decide) (fld "Key1" true) (.leaf .String "result1") (by simp) rfl
    (.leaf .String "new")

/-- C13. For a struct passed directly and the name of an unexported declared
field, Get returns a nil value and the can-not-interface error.  The checks come
in this order: an argument that is not a struct gets the must-be-a-struct error
whatever the name; a struct and a name that matches no field get the
no-such-key error; and the can-not-interface error is returned only for a
struct and a name the field lookup finds. -/
theorem C13_Get_unexported_field
    (fbnf : List StructField → String → Option (List Nat)) :
    (∀ (fs : List (StructField × GoVal)) (f : StructField) (x : GoVal),
      validFields (fs.map Prod.fst) = true → (f, x) ∈ fs → f.Exported = false →
      Get fbnf (.struct fs) f.Name = .ret (.ifaceNil, some errGetInterface)) ∧
    (∀ (i : GoVal) (fn : String), i.dyn.kind ≠ .Struct →
      Get fbnf i fn = .ret (.ifaceNil, some errMustBeStruct)) ∧
    (∀ (fs : List (StructField × GoVal)) (fn : String),
      (∀ p ∈ fs, p.1.Name ≠ fn) →
      ((∃ p ∈ fs, p.1.Anonymous = true) → fbnf (fs.map Prod.fst) fn = none) →
      Get fbnf (.struct fs) fn = .ret (.ifaceNil, some errNoSuchKey)) ∧
    (∀ (i : GoVal) (fn : String) (x : GoVal),
      Get fbnf i fn = .ret (x, some errGetInterface) →
      ∃ fs idx, i.dyn = .struct fs ∧
        structFieldByName fbnf (fs.map Prod.fst) fn = some idx) := by
  refine ⟨?_, ?_, ?_, ?_⟩
  · intro fs f x hv hmem hexp
    exact Get_unexported fbnf fs hv (f, x) hmem hexp
  · intro i fn h
    exact Get_not_struct fbnf i fn h
  · intro fs fn hdecl hprom
    rw [Get_struct, structFieldByName_unknown fbnf fs fn hdecl hprom]
  · intro i fn x h
    exact Get_interface_error_only_for_field fbnf i fn x h

/-- C13, at `UnExportedField{"this", "that"}`: the unexported `key1`, the same
name on a slice, an unknown name, and the lookup behind the error. -/
theorem C13_Get_unexported_field_witness :
    Get noPromoted (unExportedField "this" "that") "key1" =
      .ret (.ifaceNil, some errGetInterface) ∧
    Get noPromoted sliceThing "key1" = .ret (.ifaceNil, some errMustBeStruct) ∧
    Get noPromoted (unExportedField "this" "that") "key3" =
      .ret (.ifaceNil, some errNoSuchKey) ∧
    ∃ fs idx, (unExportedField "this" "that").dyn = .struct fs ∧
      structFieldByName noPromoted (fs.map Prod.fst) "key1" = some idx :=
  ⟨(C13_Get_unexported_field noPromoted).1
      [(fld "key1" false, .leaf .String "this"), (fld "Key2" true, .leaf .String "that")]
      (fld "key1" false) (.leaf .String "this") (by decide) (by simp) rfl,
   (C13_Get_unexported_field noPromoted).2.1 sliceThing "key1" (by decide),
   (C13_Get_unexported_field noPromoted).2.2.1
      [(fld "key1" false, .leaf .String "this"), (fld "Key2" true, .leaf .String "that")]
      "key3" (by simp [fld]) (fun _ => rfl),
   (C13_Get_unexported_field noPromoted).2.2.2 (unExportedField "this" "that") "key1"
      .ifaceNil rfl⟩

/-- C14 (code at the failing inputs). Two calls that do not return: Set through
a pointer to a struct, here with a new value of another type, panics in
`FieldByName`; ObjectKeysFlatten on a pointer to a struct with a struct in an
unexported field panics in `Value.Interface`. -/
theorem C14_Set_and_ObjectKeysFlatten_panic :
    Set noPromoted (fun _ _ => false) (.ptr (getFieldStruct "result1" (innerGet "3"))) "Key1"
        (.leaf .Int "7") =
      .panic "reflect: FieldByName of non-struct type" ∧
    ObjectKeysFlatten (.ptr hiddenInner) = .panic panicInterfaceRO := by
  constructor
  · rfl
  · decide

/-- C15. One pointer level on the argument changes nothing for the two
enumerators: ObjectKeys on a pointer to a struct returns the names and the nil
error it returns on the struct, and ObjectKeysFlatten on the pointer does what
it does on the struct; whatever it returns on the struct, with a nil error, it
returns on the pointer. -/
theorem C15_pointer_argument_transparent (fs : List (StructField × GoVal)) :
    (∃ r, ObjectKeys (.struct fs) = .ret (r, none) ∧
      ObjectKeys (.ptr (.struct fs)) = .ret (r, none)) ∧
    ObjectKeysFlatten (.ptr (.struct fs)) = ObjectKeysFlatten (.struct fs) ∧
    (∀ r e, ObjectKeysFlatten (.struct fs) = .ret (r, e) →
      e = none ∧ ObjectKeysFlatten (.ptr (.struct fs)) = .ret (r, none)) := by
  refine ⟨?_, ?_, ?_⟩
  · rw [ObjectKeys_ptr_struct, ObjectKeys_struct]
    exact ⟨_, rfl, rfl⟩
  · rw [ObjectKeysFlatten_ptr_struct, ObjectKeysFlatten_struct]
  · intro r e h
    have he : e = none :=
      ObjectKeysFlatten.go_struct_error _ (.struct fs) r e rfl h
    subst he
    exact ⟨rfl, by rw [ObjectKeysFlatten_ptr_struct, ← ObjectKeysFlatten_struct]; exact h⟩

/-- C15, at `Thing{}` and `&Thing{}`. -/
theorem C15_pointer_argument_transparent_witness :
    (∃ r, ObjectKeys thingZero = .ret (r, none) ∧
      ObjectKeys (.ptr thingZero) = .ret (r, none)) ∧
    ObjectKeysFlatten (.ptr thingZero) = ObjectKeysFlatten thingZero ∧
    ((none : Option String) = none ∧
      ObjectKeysFlatten (.ptr thingZero) =
        .ret (.mk ["Key1", "Key2", "Key3", "Key4", "Key5", "Key6", "Key7", "Key8"], none)) :=
  ⟨(C15_pointer_argument_transparent _).1,
   (C15_pointer_argument_transparent _).2.1,
   (C15_pointer_argument_transparent _).2.2
     (.mk ["Key1", "Key2", "Key3", "Key4", "Key5", "Key6", "Key7", "Key8"]) none
     (by decide)⟩

/-- C16 (code at the failing input). With a nil pointer field next to a struct
in an unexported field ObjectKeysFlatten panics and returns no error value; with
the nil pointer field alone it lists the name once, without nested names, and
returns a nil error. -/
theorem C16_nil_pointer_field_with_hidden_struct_panics :
    ObjectKeysFlatten nilPtrAndHidden = .panic panicInterfaceRO ∧
    ObjectKeysFlatten nilPtrField = .ret (.mk ["Key1", "Key2"], none) := by
  constructor
  · decide
  · decide

/-- C17. Set never succeeds: for every argument, key and value it returns an
error, leaving the argument as it was, or panics; it never returns a nil
error, so the store of `fv.Set` is never made. -/
theorem C17_Set_never_succeeds
    (fbnf : List StructField → String → Option (List Nat))
    (assignable : GoVal → GoVal → Bool) (i : GoVal) (k : String) (val : GoVal) :
    ((∃ e, Set fbnf assignable i k val = .ret (some e, i)) ∨
      (∃ m, Set fbnf assignable i k val = .panic m)) ∧
    ∀ j, Set fbnf assignable i k val ≠ .ret (none, j) := by
  have h := Set_error_or_panic fbnf assignable i k val
  refine ⟨h, ?_⟩
  intro j hj
  rcases h with ⟨e, he⟩ | ⟨m, hm⟩
  · rw [he] at hj; simp at hj
  · rw [hm] at hj; simp at hj

/-- C18. On a pointer to a struct ObjectKeys succeeds, but GetVals returns an
empty slice and the must-be-a-struct error of Get as soon as the struct has a
field; among pointer arguments GetVals returns a nil error only for a pointer
to a struct without fields. -/
theorem C18_GetVals_pointer_argument
    (fbnf : List StructField → String → Option (List Nat)) :
    (∀ fs : List (StructField × GoVal), fs ≠ [] →
      (∃ r, ObjectKeys (.ptr (.struct fs)) = .ret (r, none)) ∧
      GetVals fbnf (.ptr (.struct fs)) = .ret (.mk [], some errMustBeStruct)) ∧
    (∀ e : GoVal, (∃ r, GetVals fbnf (.ptr e) = .ret (r, none)) ↔ e = .struct []) ∧
    ∀ r, GetVals fbnf .ptrNil ≠ .ret (r, none) := by
  refine ⟨?_, ?_, ?_⟩
  · intro fs hfs
    refine ⟨?_, GetVals_ptr_struct fbnf fs hfs⟩
    rw [ObjectKeys_ptr_struct, ObjectKeys_struct]
    exact ⟨_, rfl⟩
  · intro e
    constructor
    · intro ⟨r, hr⟩
      by_cases hk : e.kind = .Struct
      · obtain ⟨fs, hfs⟩ := GoVal.eq_struct_of_kind e hk
        subst hfs
        cases fs with
        | nil => rfl
        | cons q rest =>
          rw [GetVals_ptr_struct fbnf (q :: rest) (by simp)] at hr
          simp at hr
      · rw [GetVals_ptr_not_struct fbnf (.ptr e) (by simpa [GoVal.dyn, GoVal.resolve] using hk)]
          at hr
        simp at hr
    · intro he
      subst he
      exact ⟨.nil, rfl⟩
  · intro r hr
    rw [GetVals_ptr_not_struct fbnf .ptrNil (by simp [GoVal.dyn, GoVal.resolve, GoVal.kind])] at hr
    simp at hr

/-- C18, at `&GetFieldStruct{"result1", InnerGet{3}}`. -/
theorem C18_GetVals_pointer_argument_witness :
    (∃ r, ObjectKeys (.ptr (getFieldStruct "result1" (innerGet "3"))) = .ret (r, none)) ∧
    GetVals noPromoted (.ptr (getFieldStruct "result1" (innerGet "3"))) =
      .ret (.mk [], some errMustBeStruct) :=
  (C18_GetVals_pointer_argument noPromoted).1
    [(fld "Key1" true, .leaf .String "result1"), (fld "Inner" true, innerGet "3")] (by simp)

/-- C19. The recursive call in the loop of ObjectKeysFlatten is made only on
values of kind Struct: the loop does the same for two functions `self` that
agree on such values; and a call of ObjectKeysFlatten on a value of kind Struct
that returns never returns the not-a-struct error, so the error the loop drops
is nil. -/
theorem C19_discarded_error_is_nil :
    (∀ (self1 self2 : GoVal → Outcome (GoSlice String × Option String)) (v : Value)
        (idxs : List Nat) (r : GoSlice String),
      (∀ fi, fi.kind = .Struct → self1 fi = self2 fi) →
      ObjectKeysFlatten.loop self1 v idxs r = ObjectKeysFlatten.loop self2 v idxs r) ∧
    (∀ (fuel : Nat) (fi : GoVal) (r : GoSlice String) (e : Option String),
      fi.kind = .Struct → ObjectKeysFlatten.go fuel fi = .ret (r, e) → e = none) ∧
    (∀ (fi : GoVal) (r : GoSlice String) (e : Option String),
      fi.kind = .Struct → ObjectKeysFlatten fi = .ret (r, e) → e = none) := by
  refine ⟨?_, ?_, ?_⟩
  · intro self1 self2 v idxs r hagree
    exact ObjectKeysFlatten_loop_congr self1 self2 hagree v idxs r
  · intro fuel fi r e hk h
    exact ObjectKeysFlatten.go_struct_error fuel fi r e hk h
  · intro fi r e hk h
    exact ObjectKeysFlatten.go_struct_error _ fi r e hk h

/-- C19, at `Thing{}`: the loop over its four fields with the recursive
function replaced, off the struct values, by one that panics; and the calls on
the nested struct `InnerThing{}`. -/
theorem C19_discarded_error_is_nil_witness :
    ObjectKeysFlatten.loop (ObjectKeysFlatten.go 3) ⟨some thingZero, false, false, false⟩
        [0, 1, 2, 3] .nil =
      ObjectKeysFlatten.loop
        (fun fi => if fi.kind = .Struct then ObjectKeysFlatten.go 3 fi else .panic "not called")
        ⟨some thingZero, false, false, false⟩ [0, 1, 2, 3] .nil ∧
    (none : Option String) = none ∧ (none : Option String) = none :=
  ⟨C19_discarded_error_is_nil.1 (ObjectKeysFlatten.go 3)
      (fun fi => if fi.kind = .Struct then ObjectKeysFlatten.go 3 fi else .panic "not called")
      ⟨some thingZero, false, false, false⟩ [0, 1, 2, 3] .nil
      (by intro fi h; simp [h]),
   C19_discarded_error_is_nil.2.1 3 (innerThing "0" (innerInnerThing "" ""))
      (.mk ["Key5", "Key6", "Key7", "Key8"]) none (by decide) (by decide),
   C19_discarded_error_is_nil.2.2 (innerThing "0" (innerInnerThing "" ""))
      (.mk ["Key5", "Key6", "Key7", "Key8"]) none (by decide) (by decide)⟩

/-- C20. When ObjectKeysFlatten returns on a struct, the names of ObjectKeys
are a subsequence, in order, of the flattened names, so the flattened list is at
least as long; the lengths are equal exactly when no field holds, after one
pointer level, a struct with at least one field. -/
theorem C20_ObjectKeys_subsequence_of_flatten (fs : List (StructField × GoVal))
    (rf : GoSlice String) (e : Option String)
    (h : ObjectKeysFlatten (.struct fs) = .ret (rf, e)) :
    ∃ rk : GoSlice String,
      ObjectKeys (.struct fs) = .ret (rk, none) ∧
      rk.elems.Sublist rf.elems ∧
      rk.len ≤ rf.len ∧
      (rf.len = rk.len ↔ ∀ p ∈ fs, ∀ gs, p.2.resolve = .struct gs → gs = []) := by
  rw [ObjectKeysFlatten_struct, flatResult] at h
  split at h
  · simp only [Outcome.ret.injEq, Prod.mk.injEq] at h
    obtain ⟨hrf, _⟩ := h
    subst hrf
    obtain ⟨hle, hiff⟩ := fieldsFlat_length fs
    refine ⟨_, ObjectKeys_struct fs, ?_, ?_, ?_⟩
    · have := fieldsFlat_sublist fs
      cases fs with
      | nil => simp
      | cons q rest => simpa using this
    · cases fs with
      | nil => simp [GoSlice.len]
      | cons q rest => simpa [GoSlice.len] using hle
    · rw [← hiff]
      cases fs <;> simp [GoSlice.len]
  · cases h

/-- C20, at `PointerField{&InnerInnerThing{}, "three"}`. -/
theorem C20_ObjectKeys_subsequence_of_flatten_witness :
    ∃ rk : GoSlice String,
      ObjectKeys (pointerField (.ptr (innerInnerThing "" "")) "three") = .ret (rk, none) ∧
      rk.elems.Sublist (GoSlice.mk ["Key1", "Key7", "Key8", "Key2"]).elems ∧
      rk.len ≤ (GoSlice.mk ["Key1", "Key7", "Key8", "Key2"]).len ∧
      ((GoSlice.mk ["Key1", "Key7", "Key8", "Key2"]).len = rk.len ↔
        ∀ p ∈ [(fld "Key1" true, GoVal.ptr (innerInnerThing "" "")),
               (fld "Key2" true, GoVal.leaf .String "three")],
          ∀ gs, p.2.resolve = .struct gs → gs = []) :=
  C20_ObjectKeys_subsequence_of_flatten
    [(fld "Key1" true, .ptr (innerInnerThing "" "")), (fld "Key2" true, .leaf .String "three")]
    (.mk ["Key1", "Key7", "Key8", "Key2"]) none (by decide)

end helpers
